import Mathlib

/-!
# Buffer pool manager instance (BusTub, `buffer_pool_manager_instance.cpp`)

A shallow embedding of `BufferPoolManagerInstance` and of the collaborators it
drives.  The manager's public operations are pure functions from a pool state to
a result and a new pool state: each is one sequential execution of the
corresponding method.  Which methods take the latch is recorded separately
(`holdsLatch`), together with one schedule of a flush against another thread
(`FlushPgImp_interleaved`).

Conventions.
* `frame_id_t` is a natural number (the source only ever produces the indices
  `0 .. pool_size_ - 1`), `pin_count_` is an integer, and `page_id_t` is a 32-bit
  signed integer held as an integer; the one arithmetic step on it, the
  post-increment of the id counter, wraps (`wrapPageId`).
* `pages_` is the frame array, read as a function from frame index to `Page`.
* A returned `Page *` is the index of the frame it points to; `nullptr` is `none`.
-/

namespace bustub

abbrev page_id_t := Int
abbrev frame_id_t := Nat

/-- Modelled from the spec: `INVALID_PAGE_ID` (declared in `config.h`) is the
"empty" sentinel page id carried by a frame that holds no page. -/
def INVALID_PAGE_ID : page_id_t := -1

/-- The value of a `page_id_t` after arithmetic: `page_id_t` is a fixed-width
signed integer (`int32_t` in BusTub's `config.h`, which is not part of the source
at hand), so a result is taken modulo `2^32` into `-2^31 .. 2^31 - 1`; in
particular `2147483647 + 1` is `-2147483648`. -/
def wrapPageId (x : Int) : page_id_t :=
  (x + 2147483648) % 4294967296 - 2147483648

/-- Modelled from the spec: `BUSTUB_PAGE_SIZE` (declared in `config.h`), the fixed
size in bytes of one page. -/
def BUSTUB_PAGE_SIZE : Nat := 4096

/-- The zero-filled page buffer, the result of `memset(data_, 0, sizeof(data_))`. -/
def zeroData : List Nat := List.replicate BUSTUB_PAGE_SIZE 0

/-- Modelled from the spec: the `Page` class (declared in `page.h`) is one frame:
raw bytes plus the metadata `page_id`, `pin_count` and `dirty`. -/
structure Page where
  data_ : List Nat
  page_id_ : page_id_t
  pin_count_ : Int
  is_dirty_ : Bool
deriving DecidableEq

/-- A frame as left by the `Page` constructor: zero bytes, no page, unpinned, clean. -/
def Page.fresh : Page :=
  { data_ := zeroData, page_id_ := INVALID_PAGE_ID, pin_count_ := 0, is_dirty_ := false }

/-! ## Storage collaborator -/

/-- One request received by the storage collaborator. -/
inductive DiskOp where
  | read (page_id : page_id_t)
  | write (page_id : page_id_t) (bytes : List Nat)
  | dealloc (page_id : page_id_t)
deriving DecidableEq

/-- Modelled from the spec: the storage collaborator (`DiskManager`). `content`
is what `ReadPage` returns for each id (the bytes last written, zero-filled for an
id never written); `requests` is the sequence of requests received so far, most
recent first. -/
structure DiskManager where
  content : page_id_t → List Nat
  requests : List DiskOp

/-- Modelled from the spec: a storage collaborator on which nothing has been
written; every id reads as zero-filled bytes. -/
def DiskManager.empty : DiskManager :=
  { content := fun _ => zeroData, requests := [] }

/-- Modelled from the spec: `ReadPage(page_id)` returns the bytes stored under
the id; the request is noted. -/
def DiskManager.ReadPage (d : DiskManager) (page_id : page_id_t) : List Nat × DiskManager :=
  (d.content page_id, { d with requests := DiskOp.read page_id :: d.requests })

/-- Modelled from the spec: `WritePage(page_id, bytes)` persists exactly the
given buffer under the id. -/
def DiskManager.WritePage (d : DiskManager) (page_id : page_id_t) (bytes : List Nat) :
    DiskManager :=
  { content := fun q => if q = page_id then bytes else d.content q,
    requests := DiskOp.write page_id bytes :: d.requests }

/-- Modelled from the spec: `DeallocatePage(page_id)` is a notification only; the
stored bytes are not touched. -/
def DiskManager.DeallocatePage (d : DiskManager) (page_id : page_id_t) : DiskManager :=
  { d with requests := DiskOp.dealloc page_id :: d.requests }

/-- The storage collaborator after a frame has been flushed if dirty: its bytes
are written under its page id when its dirty flag is set, and nothing happens
otherwise. -/
def flushedIfDirty (d : DiskManager) (old : Page) : DiskManager :=
  if old.is_dirty_ then d.WritePage old.page_id_ old.data_ else d

/-! ## Page table -/

/-- Modelled from the spec: the page table (`ExtendibleHashTable<page_id_t, frame_id_t>`)
is an exact key to value map. -/
abbrev PageTable := page_id_t → Option frame_id_t

/-- Modelled from the spec: `Find(page_id)` is the frame index or a miss (`none`). -/
def PageTable.Find (t : PageTable) (key : page_id_t) : Option frame_id_t := t key

/-- Modelled from the spec: `Insert(page_id, frame_index)`; the mapping is exact,
so the value of a key already present is replaced. -/
def PageTable.Insert (t : PageTable) (key : page_id_t) (value : frame_id_t) : PageTable :=
  fun q => if q = key then some value else t q

/-- Modelled from the spec: `Remove(page_id)` removes the mapping of a key, if any. -/
def PageTable.Remove (t : PageTable) (key : page_id_t) : PageTable :=
  fun q => if q = key then none else t q

/-! ## Eviction policy -/

/-- Modelled from the spec: the LRU-K replacer (`LRUKReplacer`). Per frame it
keeps the last `k_` access timestamps (oldest first) and an evictable flag;
`current_timestamp_` is the logical clock. -/
structure LRUKReplacer where
  replacer_size_ : Nat
  k_ : Nat
  current_timestamp_ : Nat
  history : frame_id_t → List Nat
  evictable : frame_id_t → Bool

/-- Modelled from the spec: the `LRUKReplacer(num_frames, k)` constructor, a
replacer on which nothing has been recorded; a frame takes part in victim
selection only once `SetEvictable` has marked it, so no frame is evictable yet. -/
def LRUKReplacer.new (num_frames k : Nat) : LRUKReplacer :=
  { replacer_size_ := num_frames, k_ := k, current_timestamp_ := 0,
    history := fun _ => [], evictable := fun _ => false }

/-- Modelled from the spec: `RecordAccess(frame)` appends the current logical
time, trims the history to the last `k_` entries, and advances the clock. -/
def LRUKReplacer.RecordAccess (r : LRUKReplacer) (frame_id : frame_id_t) : LRUKReplacer :=
  let h := r.history frame_id ++ [r.current_timestamp_]
  { r with
    current_timestamp_ := r.current_timestamp_ + 1,
    history := fun g => if g = frame_id then h.drop (h.length - r.k_) else r.history g }

/-- Modelled from the spec: `SetEvictable(frame, b)` toggles participation in
victim selection without touching history. -/
def LRUKReplacer.SetEvictable (r : LRUKReplacer) (frame_id : frame_id_t) (b : Bool) :
    LRUKReplacer :=
  { r with evictable := fun g => if g = frame_id then b else r.evictable g }

/-- Modelled from the spec: `Remove(frame)` unconditionally purges the frame's
history, whatever its evictable flag. -/
def LRUKReplacer.Remove (r : LRUKReplacer) (frame_id : frame_id_t) : LRUKReplacer :=
  { r with history := fun g => if g = frame_id then [] else r.history g }

/-- Modelled from the spec: the frames taking part in victim selection (those
marked evictable), in increasing index order. -/
def LRUKReplacer.candidates (r : LRUKReplacer) : List frame_id_t :=
  (List.range r.replacer_size_).filter (fun f => r.evictable f)

/-- Modelled from the spec: the oldest access the replacer still remembers for a
frame (`0` when it remembers none). -/
def LRUKReplacer.oldest (r : LRUKReplacer) (f : frame_id_t) : Nat :=
  (r.history f).headD 0

/-- Modelled from the spec: backward k-distance, the current logical time minus
the oldest of the last `k_` accesses. -/
def LRUKReplacer.kDistance (r : LRUKReplacer) (f : frame_id_t) : Nat :=
  r.current_timestamp_ - r.oldest f

/-- The first element of a list that is best for a strict preference `better`
(an element replaces the current choice only when strictly better, so ties go
to the earlier one). -/
def pickBest (better : frame_id_t → frame_id_t → Bool) : List frame_id_t → Option frame_id_t
  | [] => none
  | f :: fs => some (fs.foldl (fun best g => if better g best then g else best) f)

/-- Modelled from the spec: victim selection. Frames with fewer than `k_`
recorded accesses go first (earliest oldest access, lowest index on ties);
otherwise the frame with the largest backward k-distance (lowest index on
ties). `none` when no frame is evictable. -/
def LRUKReplacer.victim (r : LRUKReplacer) : Option frame_id_t :=
  let cold := r.candidates.filter (fun f => (r.history f).length < r.k_)
  match pickBest (fun g best => r.oldest g < r.oldest best) cold with
  | some f => some f
  | none => pickBest (fun g best => r.kDistance best < r.kDistance g) r.candidates

/-- Modelled from the spec: `Evict()` removes the chosen victim from history
bookkeeping and returns it, or fails when there is no evictable frame. -/
def LRUKReplacer.Evict (r : LRUKReplacer) : Option (frame_id_t × LRUKReplacer) :=
  match r.victim with
  | none => none
  | some f => some (f, r.Remove f)

/-! ## Buffer pool manager -/

/-- The state of a `BufferPoolManagerInstance`. -/
structure BufferPoolManagerInstance where
  pool_size_ : Nat
  pages_ : frame_id_t → Page
  page_table_ : PageTable
  replacer_ : LRUKReplacer
  free_list_ : List frame_id_t
  disk_manager_ : DiskManager
  next_page_id_ : page_id_t

namespace BufferPoolManagerInstance

/-- The constructor: every frame is fresh and in the free list, the page table
is empty, the replacer is new and the id counter starts at `0`. -/
def new (pool_size : Nat) (disk_manager : DiskManager) (replacer_k : Nat) :
    BufferPoolManagerInstance :=
  { pool_size_ := pool_size,
    pages_ := fun _ => Page.fresh,
    page_table_ := fun _ => none,
    replacer_ := LRUKReplacer.new pool_size replacer_k,
    free_list_ := List.range pool_size,
    disk_manager_ := disk_manager,
    next_page_id_ := 0 }

/-- Overwrite one frame of the frame array. -/
def setPage (s : BufferPoolManagerInstance) (f : frame_id_t) (pg : Page) :
    BufferPoolManagerInstance :=
  { s with pages_ := fun g => if g = f then pg else s.pages_ g }

/-- The source's `AllocatePage`: `return next_page_id_++`. The counter is a
`page_id_t`, so the increment wraps at the width of the type. -/
def AllocatePage (s : BufferPoolManagerInstance) : page_id_t × BufferPoolManagerInstance :=
  (s.next_page_id_, { s with next_page_id_ := wrapPageId (s.next_page_id_ + 1) })

/-- Modelled from the spec: `DeallocatePage` (declared in the header) issues a
deallocation notice for the id to the storage collaborator. -/
def DeallocatePage (s : BufferPoolManagerInstance) (page_id : page_id_t) :
    BufferPoolManagerInstance :=
  { s with disk_manager_ := s.disk_manager_.DeallocatePage page_id }

/-- Modelled from the spec: `IsFullPage` (declared in the header) is the pool
exhaustion test: no free frame exists and eviction finds no evictable victim. -/
def IsFullPage (s : BufferPoolManagerInstance) : Bool :=
  s.free_list_.isEmpty && s.replacer_.victim.isNone

/-- Modelled from the spec: `GetListFront` (declared in the header) pops the
front of the free list. The caller's `frame_id` starts at `0` and stays so when
the list is empty. -/
def GetListFront (s : BufferPoolManagerInstance) : frame_id_t × BufferPoolManagerInstance :=
  match s.free_list_ with
  | [] => (0, s)
  | f :: rest => (f, { s with free_list_ := rest })

/-- Modelled from the spec: `GetAndEvict` (declared in the header) asks the
eviction policy for a victim; if the victim frame holds a dirty page it is
flushed to storage before reuse; the victim's old page table entry is removed
and its history purged. The caller's `frame_id` starts at `0` and stays so when
there is no victim. -/
def GetAndEvict (s : BufferPoolManagerInstance) : frame_id_t × BufferPoolManagerInstance :=
  match s.replacer_.Evict with
  | none => (0, s)
  | some (f, r) =>
    let old := s.pages_ f
    (f, { s with replacer_ := r, disk_manager_ := flushedIfDirty s.disk_manager_ old,
                 page_table_ := s.page_table_.Remove old.page_id_ })

/-- Modelled from the spec: `AllocateNewFrame` (declared in the header)
allocates a fresh id, resets the frame to zero bytes, `dirty = false`,
`pin_count = 1`, marks the frame non-evictable, inserts the page table entry and
records an access. -/
def AllocateNewFrame (s : BufferPoolManagerInstance) (frame_id : frame_id_t) :
    Option (page_id_t × frame_id_t) × BufferPoolManagerInstance :=
  let (page_id, s1) := s.AllocatePage
  let s2 := s1.setPage frame_id
    { data_ := zeroData, page_id_ := page_id, pin_count_ := 1, is_dirty_ := false }
  let s3 := { s2 with page_table_ := s2.page_table_.Insert page_id frame_id }
  let s4 := { s3 with replacer_ := (s3.replacer_.SetEvictable frame_id false).RecordAccess frame_id }
  (some (page_id, frame_id), s4)

/-- The source's `NewPgImp`. The result is the new page id with the frame
holding it, or `none` for `nullptr`. -/
def NewPgImp (s : BufferPoolManagerInstance) :
    Option (page_id_t × frame_id_t) × BufferPoolManagerInstance :=
  if s.IsFullPage then (none, s)
  else if !s.free_list_.isEmpty then
    let (frame_id, s1) := s.GetListFront
    s1.AllocateNewFrame frame_id
  else
    let (frame_id, s1) := s.GetAndEvict
    s1.AllocateNewFrame frame_id

/-- The source's `FetchPgImp`. -/
def FetchPgImp (s : BufferPoolManagerInstance) (page_id : page_id_t) :
    Option frame_id_t × BufferPoolManagerInstance :=
  match s.page_table_.Find page_id with
  | none =>
    if s.IsFullPage then (none, s)
    else
      let (frame_id, s1) := if !s.free_list_.isEmpty then s.GetListFront else s.GetAndEvict
      let s2 := s1.setPage frame_id
        { s1.pages_ frame_id with page_id_ := page_id, is_dirty_ := false, pin_count_ := 1 }
      let s3 := { s2 with page_table_ := s2.page_table_.Insert page_id frame_id }
      let s4 := { s3 with replacer_ := s3.replacer_.SetEvictable frame_id false }
      let s5 := { s4 with replacer_ := s4.replacer_.RecordAccess frame_id }
      let (bytes, d) := s5.disk_manager_.ReadPage page_id
      let s6 := { s5.setPage frame_id { s5.pages_ frame_id with data_ := bytes } with
                  disk_manager_ := d }
      (some frame_id, s6)
  | some frame_id1 =>
    let s1 := s.setPage frame_id1
      { s.pages_ frame_id1 with pin_count_ := (s.pages_ frame_id1).pin_count_ + 1 }
    let s2 := { s1 with replacer_ := s1.replacer_.SetEvictable frame_id1 false }
    let s3 := { s2 with replacer_ := s2.replacer_.RecordAccess frame_id1 }
    (some frame_id1, s3)

/-- The source's `UnpinPgImp`. -/
def UnpinPgImp (s : BufferPoolManagerInstance) (page_id : page_id_t) (is_dirty : Bool) :
    Bool × BufferPoolManagerInstance :=
  match s.page_table_.Find page_id with
  | none => (true, s)
  | some my_frame =>
    let s1 := if is_dirty then s.setPage my_frame { s.pages_ my_frame with is_dirty_ := is_dirty }
              else s
    if (s1.pages_ my_frame).pin_count_ ≤ 0 then (false, s1)
    else
      let s2 := s1.setPage my_frame
        { s1.pages_ my_frame with pin_count_ := (s1.pages_ my_frame).pin_count_ - 1 }
      if (s2.pages_ my_frame).pin_count_ = 0 then
        (true, { s2 with replacer_ := s2.replacer_.SetEvictable my_frame true })
      else (true, s2)

/-- The source's `FlushPgImp`. -/
def FlushPgImp (s : BufferPoolManagerInstance) (page_id : page_id_t) :
    Bool × BufferPoolManagerInstance :=
  match s.page_table_.Find page_id with
  | none => (false, s)
  | some frame_id =>
    let s1 := { s with disk_manager_ :=
                  s.disk_manager_.WritePage page_id (s.pages_ frame_id).data_ }
    let s2 := s1.setPage frame_id { s1.pages_ frame_id with is_dirty_ := false }
    (true, s2)

/-- The source's `FlushAllPgsImp`: `FlushPgImp(pages_[i].page_id_)` for
`i = 0 .. pool_size_ - 1`, in order. -/
def FlushAllPgsImp (s : BufferPoolManagerInstance) : BufferPoolManagerInstance :=
  (List.range s.pool_size_).foldl (fun st i => (st.FlushPgImp (st.pages_ i).page_id_).2) s

/-- The source's `DeletePgImp`. -/
def DeletePgImp (s : BufferPoolManagerInstance) (page_id : page_id_t) :
    Bool × BufferPoolManagerInstance :=
  match s.page_table_.Find page_id with
  | none => (true, s)
  | some frame_id =>
    if (s.pages_ frame_id).pin_count_ > 0 then (false, s)
    else
      let s1 := { s with page_table_ := s.page_table_.Remove page_id }
      let s2 := { s1 with replacer_ := s1.replacer_.Remove frame_id }
      let s3 := { s2 with replacer_ := s2.replacer_.SetEvictable frame_id true }
      let s4 := { s3 with free_list_ := frame_id :: s3.free_list_ }
      let s5 := s4.setPage frame_id { s4.pages_ frame_id with data_ := zeroData }
      let s6 := s5.setPage frame_id { s5.pages_ frame_id with is_dirty_ := false }
      let s7 := s6.setPage frame_id { s6.pages_ frame_id with pin_count_ := 0 }
      let s8 := s7.setPage frame_id { s7.pages_ frame_id with page_id_ := INVALID_PAGE_ID }
      (true, s8.DeallocatePage page_id)

/-- A caller writing through the `Page *` it was handed: the bytes of frame `f`
become `bytes`; nothing else changes (the dirty flag is only set at unpin). -/
def WriteData (s : BufferPoolManagerInstance) (f : frame_id_t) (bytes : List Nat) :
    BufferPoolManagerInstance :=
  s.setPage f { s.pages_ f with data_ := bytes }

/-- One call of a public operation of the buffer pool manager. -/
inductive Op where
  | newPage
  | fetchPage (page_id : page_id_t)
  | unpinPage (page_id : page_id_t) (is_dirty : Bool)
  | flushPage (page_id : page_id_t)
  | flushAllPages
  | deletePage (page_id : page_id_t)
deriving DecidableEq

/-- The pool state after one call. -/
def step (s : BufferPoolManagerInstance) : Op → BufferPoolManagerInstance
  | Op.newPage => s.NewPgImp.2
  | Op.fetchPage p => (s.FetchPgImp p).2
  | Op.unpinPage p d => (s.UnpinPgImp p d).2
  | Op.flushPage p => (s.FlushPgImp p).2
  | Op.flushAllPages => s.FlushAllPgsImp
  | Op.deletePage p => (s.DeletePgImp p).2

/-- The pool state after a sequence of calls, executed in order. -/
def run (s : BufferPoolManagerInstance) (ops : List Op) : BufferPoolManagerInstance :=
  ops.foldl step s

/-- Only unpinned frames of the pool are evictable in the replacer. -/
def EvictableOnlyUnpinned (s : BufferPoolManagerInstance) : Prop :=
  ∀ f, s.replacer_.evictable f = true → f < s.pool_size_ ∧ (s.pages_ f).pin_count_ = 0

/-- Every frame index held by the page table or the free list is a frame of
the pool. -/
def FramesInPool (s : BufferPoolManagerInstance) : Prop :=
  (∀ p f, s.page_table_ p = some f → f < s.pool_size_) ∧ ∀ f, f ∈ s.free_list_ → f < s.pool_size_

/-- Pin counts are non-negative, every evictable frame has pin count 0, and
every frame that holds a resident page (has a page table entry) with pin count 0
is evictable. -/
def EvictabilityInvariant (s : BufferPoolManagerInstance) : Prop :=
  (∀ f, 0 ≤ (s.pages_ f).pin_count_) ∧
  (∀ f, s.replacer_.evictable f = true → (s.pages_ f).pin_count_ = 0) ∧
  (∀ p f, s.page_table_ p = some f → (s.pages_ f).pin_count_ = 0 →
    s.replacer_.evictable f = true)

/-- The free/resident partition of the frames of the pool: the free list has no
duplicates and holds frames of the pool; every page table entry maps to a frame
of the pool that is not in the free list; no two page ids map to the same frame;
and every frame of the pool is in the free list or in the image of the page
table. -/
def Partitioned (s : BufferPoolManagerInstance) : Prop :=
  s.free_list_.Nodup ∧
  (∀ f, f ∈ s.free_list_ → f < s.pool_size_) ∧
  (∀ p f, s.page_table_ p = some f → f < s.pool_size_ ∧ f ∉ s.free_list_) ∧
  (∀ p q f, s.page_table_ p = some f → s.page_table_ q = some f → p = q) ∧
  (∀ f, f < s.pool_size_ → f ∈ s.free_list_ ∨ ∃ p, s.page_table_ p = some f)

/-- No frame is counted twice: the free list has no duplicates and holds frames
of the pool; every page table entry maps to a frame of the pool that is not in
the free list; and no two page ids map to the same frame. -/
def FramesAtMostOnce (s : BufferPoolManagerInstance) : Prop :=
  s.free_list_.Nodup ∧
  (∀ f, f ∈ s.free_list_ → f < s.pool_size_) ∧
  (∀ p f, s.page_table_ p = some f → f < s.pool_size_ ∧ f ∉ s.free_list_) ∧
  (∀ p q f, s.page_table_ p = some f → s.page_table_ q = some f → p = q)

/-- Every page table entry `p -> f` has frame `f` carrying id `p`. -/
def TableCarriesIds (s : BufferPoolManagerInstance) : Prop :=
  ∀ p f, s.page_table_ p = some f → (s.pages_ f).page_id_ = p

/-- Every page table entry `p -> f` has frame `f` carrying id `p`, and `p` is
below the id counter. -/
def TableMatchesFrames (s : BufferPoolManagerInstance) : Prop :=
  ∀ p f, s.page_table_ p = some f → (s.pages_ f).page_id_ = p ∧ p < s.next_page_id_

/-- The call, if it is a `FetchPage`, asks for an id below the id counter, that
is, an id that `NewPage` does not hand out before the counter wraps. -/
def fetchesKnown (s : BufferPoolManagerInstance) : Op → Bool
  | Op.fetchPage q => decide (q < s.next_page_id_)
  | _ => true

/-- Every `FetchPage` of the sequence, executed in order from `s`, asks for an id
below the id counter at the time of the call. -/
def fetchesKnownAll : BufferPoolManagerInstance → List Op → Bool
  | _, [] => true
  | s, op :: rest => fetchesKnown s op && fetchesKnownAll (step s op) rest

/-- The ids returned by `n` successive calls of `AllocatePage`, in call order,
with the state after the last call. -/
def AllocatePages : Nat → BufferPoolManagerInstance → List page_id_t × BufferPoolManagerInstance
  | 0, s => ([], s)
  | n + 1, s =>
    (s.AllocatePage.1 :: (AllocatePages n s.AllocatePage.2).1, (AllocatePages n s.AllocatePage.2).2)

/-- Whether the method, in the source, opens with
`std::scoped_lock<std::mutex> lock(latch_)` and so holds the latch until it
returns: `NewPgImp` (line 46), `FetchPgImp` (line 62), `UnpinPgImp` (line 93)
and `DeletePgImp` (line 137) do; `FlushPgImp` (lines 116-127) and
`FlushAllPgsImp` (lines 129-134) take no lock. -/
def holdsLatch : Op → Bool
  | Op.newPage => true
  | Op.fetchPage _ => true
  | Op.unpinPage _ _ => true
  | Op.flushPage _ => false
  | Op.flushAllPages => false
  | Op.deletePage _ => true

/-- The second half of `FlushPgImp` (lines 124-125), run with the frame index the
first half found: write the frame's bytes under the id and clear its dirty flag. -/
def FlushPgImp_write (s : BufferPoolManagerInstance) (page_id : page_id_t)
    (frame_id : frame_id_t) : BufferPoolManagerInstance :=
  let s1 := { s with disk_manager_ :=
                s.disk_manager_.WritePage page_id (s.pages_ frame_id).data_ }
  s1.setPage frame_id { s1.pages_ frame_id with is_dirty_ := false }

/-- A schedule of `FlushPgImp page_id` against another thread: the flush looks
the page up (line 119), the other thread then runs the calls `others`, each
under the latch, and the flush then writes (lines 124-125) with the frame index
it found before. The flush holds no latch, so nothing in the source delays the
other thread. -/
def FlushPgImp_interleaved (s : BufferPoolManagerInstance) (page_id : page_id_t)
    (others : List Op) : Bool × BufferPoolManagerInstance :=
  match s.page_table_.Find page_id with
  | none => (false, run s others)
  | some frame_id => (true, FlushPgImp_write (run s others) page_id frame_id)

/-- State `t` differs from `s` only by flushes of pages resident in `s`: the
page table, free list, replacer, pool size and id counter are those of `s`;
every frame keeps its bytes, page id and pin count, and no dirty flag has been
set; every request added to the storage collaborator is a write of the bytes
of a frame under the id the page table maps to it, and the bytes stored under
an id are the old ones or those of the frame the page table maps the id to. -/
def FlushedFrom (s t : BufferPoolManagerInstance) : Prop :=
  t.page_table_ = s.page_table_ ∧ t.free_list_ = s.free_list_ ∧ t.replacer_ = s.replacer_ ∧
  t.pool_size_ = s.pool_size_ ∧ t.next_page_id_ = s.next_page_id_ ∧
  (∀ g, (t.pages_ g).data_ = (s.pages_ g).data_ ∧ (t.pages_ g).page_id_ = (s.pages_ g).page_id_ ∧
    (t.pages_ g).pin_count_ = (s.pages_ g).pin_count_ ∧
    ((t.pages_ g).is_dirty_ = true → (s.pages_ g).is_dirty_ = true)) ∧
  (∃ added, t.disk_manager_.requests = added ++ s.disk_manager_.requests ∧
    ∀ op, op ∈ added → ∃ p f, s.page_table_ p = some f ∧ op = DiskOp.write p (s.pages_ f).data_) ∧
  (∀ r, t.disk_manager_.content r = s.disk_manager_.content r ∨
    ∃ f, s.page_table_ r = some f ∧ t.disk_manager_.content r = (s.pages_ f).data_)

/-- The calls of `n` rounds of `NewPage()`, `UnpinPage(id, false)`,
`DeletePage(id)`, each round creating a page and deleting it again; `id` is the
id the round's `NewPage()` hands out, `wrapPageId (1 + k)` in the first round
when the id counter stands there. -/
def createAndDelete : Nat → Nat → List Op
  | 0, _ => []
  | n + 1, k =>
    Op.newPage :: Op.unpinPage (wrapPageId (1 + k)) false ::
      Op.deletePage (wrapPageId (1 + k)) :: createAndDelete n (k + 1)

/-- A sequence of calls that takes the id counter once around: `NewPage()`
(which hands out id 0), then `2^32 - 1` rounds of creating and deleting a page,
then `NewPage()` again. It contains no `FetchPage`. -/
def wrapAround : List Op :=
  Op.newPage :: (createAndDelete 4294967295 0 ++ [Op.newPage])

/-- A two-frame pool in which page 0 is resident in frame 0 and is the only
resident page, frame 1 is free, and the id counter stands at `wrapPageId (1 + k)`. -/
def OnePageHeld (s : BufferPoolManagerInstance) (k : Nat) : Prop :=
  s.pool_size_ = 2 ∧ s.free_list_ = [1] ∧
  (∀ p, s.page_table_ p = if p = 0 then some 0 else none) ∧
  s.next_page_id_ = wrapPageId (1 + k)

end BufferPoolManagerInstance

/-! ## Sample pools

Small pools reached from a freshly constructed one by public operations. -/

namespace Sample

open BufferPoolManagerInstance

/-- A one-frame pool after one `NewPage()`: frame 0 holds page 0 with pin count 1. -/
def pinned1 : BufferPoolManagerInstance :=
  (BufferPoolManagerInstance.new 1 DiskManager.empty 2).NewPgImp.2

/-- The pool `pinned1` after `UnpinPage(0, false)`: page 0 is resident, unpinned and clean. -/
def unpinned1 : BufferPoolManagerInstance :=
  (pinned1.UnpinPgImp 0 false).2

/-- A two-frame pool after one `NewPage()`: frame 0 holds page 0 with pin count
1, frame 1 is still in the free list. -/
def half2 : BufferPoolManagerInstance :=
  (BufferPoolManagerInstance.new 2 DiskManager.empty 2).NewPgImp.2

/-- The one-frame pool `pinned1` after the caller wrote the bytes `[1, 2, 3]` into
page 0 and called `UnpinPage(0, true)`: page 0 is resident, unpinned and dirty. -/
def dirty1 : BufferPoolManagerInstance :=
  ((pinned1.WriteData 0 [1, 2, 3]).UnpinPgImp 0 true).2

/-- A two-frame pool after `FetchPage(0)` on the fresh pool (page 0 goes to frame
0) and then `NewPage()`, which hands out id 0 again and installs it in frame 1. -/
def orphaned2 : BufferPoolManagerInstance :=
  run (BufferPoolManagerInstance.new 2 DiskManager.empty 2) [Op.fetchPage 0, Op.newPage]

/-- A fresh one-frame pool whose id counter stands at `2147483647`, the largest
`page_id_t`: the state of the counter after `2147483647` calls of `AllocatePage`. -/
def lastId : BufferPoolManagerInstance :=
  { BufferPoolManagerInstance.new 1 DiskManager.empty 2 with next_page_id_ := 2147483647 }

end Sample

/-! ## Basic facts about frame updates -/

open BufferPoolManagerInstance

@[simp] theorem setPage_pages_same (s : BufferPoolManagerInstance) (f : frame_id_t) (pg : Page) :
    (s.setPage f pg).pages_ f = pg := by
  simp [setPage]

theorem setPage_pages_other (s : BufferPoolManagerInstance) (f g : frame_id_t) (pg : Page)
    (h : g ≠ f) : (s.setPage f pg).pages_ g = s.pages_ g := by
  simp [setPage, h]

@[simp] theorem setPage_page_table (s : BufferPoolManagerInstance) (f : frame_id_t) (pg : Page) :
    (s.setPage f pg).page_table_ = s.page_table_ := rfl

@[simp] theorem setPage_replacer (s : BufferPoolManagerInstance) (f : frame_id_t) (pg : Page) :
    (s.setPage f pg).replacer_ = s.replacer_ := rfl

@[simp] theorem setPage_free_list (s : BufferPoolManagerInstance) (f : frame_id_t) (pg : Page) :
    (s.setPage f pg).free_list_ = s.free_list_ := rfl

@[simp] theorem setPage_disk_manager (s : BufferPoolManagerInstance) (f : frame_id_t) (pg : Page) :
    (s.setPage f pg).disk_manager_ = s.disk_manager_ := rfl

@[simp] theorem setPage_pool_size (s : BufferPoolManagerInstance) (f : frame_id_t) (pg : Page) :
    (s.setPage f pg).pool_size_ = s.pool_size_ := rfl

@[simp] theorem setPage_next_page_id (s : BufferPoolManagerInstance) (f : frame_id_t) (pg : Page) :
    (s.setPage f pg).next_page_id_ = s.next_page_id_ := rfl

/-- An id within the range of `page_id_t` is its own wrapped value. -/
theorem wrapPageId_of_range (x : Int) (h1 : -2147483648 ≤ x) (h2 : x < 2147483648) :
    wrapPageId x = x := by
  show ((x + 2147483648) % 4294967296 - 2147483648 : Int) = x
  omega

/-- A wrapped value is within the range of `page_id_t`. -/
theorem wrapPageId_range (x : Int) :
    -2147483648 ≤ wrapPageId x ∧ wrapPageId x < 2147483648 := by
  show (-2147483648 : Int) ≤ (x + 2147483648) % 4294967296 - 2147483648 ∧
    ((x + 2147483648) % 4294967296 - 2147483648 : Int) < 2147483648
  omega

/-! ## UnpinPgImp on a pinned resident page -/

/-- C1: when `p` is resident in frame `f` with a positive pin count,
`UnpinPgImp p is_dirty` returns `true`, sets the frame's dirty flag to
`old dirty || is_dirty`, decrements its pin count by exactly one, and calls
`SetEvictable f true` on the replacer exactly when the new pin count is zero;
otherwise the replacer is left as it was. -/
theorem unpin_pinned_resident (s : BufferPoolManagerInstance) (p : page_id_t) (f : frame_id_t)
    (is_dirty : Bool) (hres : s.page_table_ p = some f)
    (hpin : 0 < (s.pages_ f).pin_count_) :
    (s.UnpinPgImp p is_dirty).1 = true ∧
    ((s.UnpinPgImp p is_dirty).2.pages_ f).is_dirty_ = ((s.pages_ f).is_dirty_ || is_dirty) ∧
    ((s.UnpinPgImp p is_dirty).2.pages_ f).pin_count_ = (s.pages_ f).pin_count_ - 1 ∧
    ((s.pages_ f).pin_count_ - 1 = 0 →
      (s.UnpinPgImp p is_dirty).2.replacer_ = s.replacer_.SetEvictable f true) ∧
    ((s.pages_ f).pin_count_ - 1 ≠ 0 →
      (s.UnpinPgImp p is_dirty).2.replacer_ = s.replacer_) := by
  have hnot : ¬ (s.pages_ f).pin_count_ ≤ 0 := not_le.mpr hpin
  cases is_dirty <;>
    by_cases hz : (s.pages_ f).pin_count_ - 1 = 0 <;>
    simp [UnpinPgImp, PageTable.Find, hres, hnot, hz]

/-- Witness of C1 on the one-frame pool holding page 0 with pin count 1. -/
theorem unpin_pinned_resident_witness :
    Sample.pinned1.page_table_ 0 = some 0 ∧
    0 < (Sample.pinned1.pages_ 0).pin_count_ ∧
    (Sample.pinned1.UnpinPgImp 0 true).1 = true ∧
    ((Sample.pinned1.UnpinPgImp 0 true).2.pages_ 0).is_dirty_ = true ∧
    ((Sample.pinned1.UnpinPgImp 0 true).2.pages_ 0).pin_count_ = 0 :=
  have h := unpin_pinned_resident Sample.pinned1 0 0 true (by decide) (by decide)
  ⟨by decide, by decide, h.1, h.2.1.trans (by decide), h.2.2.1.trans (by decide)⟩

/-! ## FetchPgImp -/

/-- The hit path of `FetchPgImp`, as one state update. -/
theorem FetchPgImp_hit (s : BufferPoolManagerInstance) (p : page_id_t) (f : frame_id_t)
    (hres : s.page_table_ p = some f) :
    s.FetchPgImp p =
      (some f,
       { s with
         pages_ := fun g => if g = f then
           { s.pages_ f with pin_count_ := (s.pages_ f).pin_count_ + 1 } else s.pages_ g,
         replacer_ := (s.replacer_.SetEvictable f false).RecordAccess f }) := by
  simp [FetchPgImp, PageTable.Find, hres, setPage]

/-- The miss path of `FetchPgImp` when the free list is not empty. -/
theorem FetchPgImp_miss_free (s : BufferPoolManagerInstance) (p : page_id_t) (f : frame_id_t)
    (rest : List frame_id_t) (hmiss : s.page_table_ p = none) (hfl : s.free_list_ = f :: rest) :
    s.FetchPgImp p =
      (some f,
       { s with
         pages_ := fun g => if g = f then
           { data_ := s.disk_manager_.content p, page_id_ := p, pin_count_ := 1,
             is_dirty_ := false } else s.pages_ g,
         page_table_ := s.page_table_.Insert p f,
         replacer_ := (s.replacer_.SetEvictable f false).RecordAccess f,
         free_list_ := rest,
         disk_manager_ := (s.disk_manager_.ReadPage p).2 }) := by
  have hfull : s.IsFullPage = false := by simp [IsFullPage, hfl]
  simp [FetchPgImp, PageTable.Find, hmiss, hfull, hfl, GetListFront, setPage,
    DiskManager.ReadPage]
  funext g
  split <;> rfl

/-- The miss path of `FetchPgImp` when the free list is empty and the replacer
yields the victim `f`. -/
theorem FetchPgImp_miss_evict (s : BufferPoolManagerInstance) (p : page_id_t) (f : frame_id_t)
    (hmiss : s.page_table_ p = none) (hfl : s.free_list_ = [])
    (hv : s.replacer_.victim = some f) :
    s.FetchPgImp p =
      (some f,
       { s with
         pages_ := fun g => if g = f then
           { data_ := (flushedIfDirty s.disk_manager_ (s.pages_ f)).content p, page_id_ := p,
             pin_count_ := 1, is_dirty_ := false } else s.pages_ g,
         page_table_ := (s.page_table_.Remove (s.pages_ f).page_id_).Insert p f,
         replacer_ := ((s.replacer_.Remove f).SetEvictable f false).RecordAccess f,
         disk_manager_ := ((flushedIfDirty s.disk_manager_ (s.pages_ f)).ReadPage p).2 }) := by
  have hfull : s.IsFullPage = false := by simp [IsFullPage, hv]
  simp [FetchPgImp, PageTable.Find, hmiss, hfull, hfl, GetAndEvict, LRUKReplacer.Evict, hv,
    setPage, DiskManager.ReadPage, flushedIfDirty]
  funext g
  split <;> rfl

/-- C2: when `p` is resident in frame `f`, `FetchPgImp p` returns frame `f`,
increments its pin count by exactly one, marks it non-evictable and records one
access for it in the replacer, and leaves the frame's bytes, dirty flag and page
id, every other frame, the page table, the free list and the storage collaborator
(contents and requests, so no read is issued) unchanged. -/
theorem fetch_hit (s : BufferPoolManagerInstance) (p : page_id_t) (f : frame_id_t)
    (hres : s.page_table_ p = some f) :
    (s.FetchPgImp p).1 = some f ∧
    ((s.FetchPgImp p).2.pages_ f).pin_count_ = (s.pages_ f).pin_count_ + 1 ∧
    (s.FetchPgImp p).2.replacer_ = (s.replacer_.SetEvictable f false).RecordAccess f ∧
    (s.FetchPgImp p).2.replacer_.evictable f = false ∧
    ((s.FetchPgImp p).2.pages_ f).data_ = (s.pages_ f).data_ ∧
    ((s.FetchPgImp p).2.pages_ f).is_dirty_ = (s.pages_ f).is_dirty_ ∧
    ((s.FetchPgImp p).2.pages_ f).page_id_ = (s.pages_ f).page_id_ ∧
    (∀ g, g ≠ f → (s.FetchPgImp p).2.pages_ g = s.pages_ g) ∧
    (s.FetchPgImp p).2.page_table_ = s.page_table_ ∧
    (s.FetchPgImp p).2.free_list_ = s.free_list_ ∧
    (s.FetchPgImp p).2.disk_manager_ = s.disk_manager_ := by
  rw [FetchPgImp_hit s p f hres]
  refine ⟨rfl, ?_, rfl, ?_, ?_, ?_, ?_, ?_, rfl, rfl, rfl⟩
  · simp
  · simp [LRUKReplacer.RecordAccess, LRUKReplacer.SetEvictable]
  · simp
  · simp
  · simp
  · intro g hg
    simp [hg]

/-- Witness of C2 on the one-frame pool holding page 0 with pin count 1. -/
theorem fetch_hit_witness :
    Sample.pinned1.page_table_ 0 = some 0 ∧
    (Sample.pinned1.FetchPgImp 0).1 = some 0 ∧
    ((Sample.pinned1.FetchPgImp 0).2.pages_ 0).pin_count_ = 2 :=
  have h := fetch_hit Sample.pinned1 0 0 (by decide)
  ⟨by decide, h.1, h.2.1.trans (by decide)⟩

/-- `IsFullPage` is false exactly when a frame can be obtained: from the free list
or from the replacer. -/
theorem not_full_cases (s : BufferPoolManagerInstance) (h : s.IsFullPage = false) :
    (∃ f rest, s.free_list_ = f :: rest) ∨
    (s.free_list_ = [] ∧ ∃ f, s.replacer_.victim = some f) := by
  unfold IsFullPage at h
  cases hfl : s.free_list_ with
  | nil =>
    right
    refine ⟨rfl, ?_⟩
    cases hv : s.replacer_.victim with
    | none => simp [hfl, hv] at h
    | some f => exact ⟨f, rfl⟩
  | cons f rest => exact Or.inl ⟨f, rest, rfl⟩

/-- C3: when `p` is not resident and the pool is not exhausted, `FetchPgImp p`
returns a frame `f` whose page id is `p`, pin count is `1`, dirty flag is
`false` and whose bytes are what the storage collaborator's `ReadPage(p)`
returns (a read request for `p` was the last request issued); the page table
maps `p` to `f`, `f` is non-evictable and an access has been recorded for `f`:
the replacer is the result of `SetEvictable(f, false)` then `RecordAccess(f)`,
applied to the old replacer when `f` is the front of the free list, and to the
old replacer with the victim `f` removed when the free list is empty. -/
theorem fetch_miss (s : BufferPoolManagerInstance) (p : page_id_t)
    (hmiss : s.page_table_ p = none) (hroom : s.IsFullPage = false) :
    ∃ f, (s.FetchPgImp p).1 = some f ∧
      ((s.FetchPgImp p).2.pages_ f).page_id_ = p ∧
      ((s.FetchPgImp p).2.pages_ f).pin_count_ = 1 ∧
      ((s.FetchPgImp p).2.pages_ f).is_dirty_ = false ∧
      ((s.FetchPgImp p).2.pages_ f).data_ = (s.FetchPgImp p).2.disk_manager_.content p ∧
      (s.FetchPgImp p).2.disk_manager_.requests.head? = some (DiskOp.read p) ∧
      (s.FetchPgImp p).2.page_table_ p = some f ∧
      (s.FetchPgImp p).2.replacer_.evictable f = false ∧
      ((s.free_list_.head? = some f ∧
          (s.FetchPgImp p).2.replacer_ = (s.replacer_.SetEvictable f false).RecordAccess f) ∨
        (s.free_list_ = [] ∧ s.replacer_.victim = some f ∧
          (s.FetchPgImp p).2.replacer_ =
            ((s.replacer_.Remove f).SetEvictable f false).RecordAccess f)) := by
  rcases not_full_cases s hroom with ⟨f, rest, hfl⟩ | ⟨hfl, f, hv⟩
  · rw [FetchPgImp_miss_free s p f rest hmiss hfl]
    refine ⟨f, rfl, ?_, ?_, ?_, ?_, ?_, ?_, ?_, Or.inl ⟨by simp [hfl], rfl⟩⟩ <;>
      simp [DiskManager.ReadPage, PageTable.Insert, LRUKReplacer.RecordAccess,
        LRUKReplacer.SetEvictable]
  · rw [FetchPgImp_miss_evict s p f hmiss hfl hv]
    refine ⟨f, rfl, ?_, ?_, ?_, ?_, ?_, ?_, ?_, Or.inr ⟨hfl, hv, rfl⟩⟩ <;>
      simp [DiskManager.ReadPage, PageTable.Insert, LRUKReplacer.RecordAccess,
        LRUKReplacer.SetEvictable]

/-- Witness of C3 on a freshly constructed one-frame pool. -/
theorem fetch_miss_witness :
    (BufferPoolManagerInstance.new 1 DiskManager.empty 2).page_table_ 0 = none ∧
    (BufferPoolManagerInstance.new 1 DiskManager.empty 2).IsFullPage = false ∧
    ∃ f, ((BufferPoolManagerInstance.new 1 DiskManager.empty 2).FetchPgImp 0).1 = some f ∧
      (((BufferPoolManagerInstance.new 1 DiskManager.empty 2).FetchPgImp 0).2.pages_ f).pin_count_
        = 1 :=
  have h := fetch_miss (BufferPoolManagerInstance.new 1 DiskManager.empty 2) 0
    (by decide) (by decide)
  ⟨by decide, by decide, h.elim fun f hf => ⟨f, hf.1, hf.2.2.1⟩⟩

/-! ## Flush before reuse -/

/-- `NewPgImp` with the obtained frame and state named by projections. -/
theorem NewPgImp_eq (s : BufferPoolManagerInstance) :
    s.NewPgImp =
      if s.IsFullPage then (none, s)
      else if !s.free_list_.isEmpty then s.GetListFront.2.AllocateNewFrame s.GetListFront.1
      else s.GetAndEvict.2.AllocateNewFrame s.GetAndEvict.1 := rfl

/-- The path of `NewPgImp` that takes the front of a non-empty free list. -/
theorem NewPgImp_free (s : BufferPoolManagerInstance) (f : frame_id_t) (rest : List frame_id_t)
    (hfl : s.free_list_ = f :: rest) :
    s.NewPgImp =
      (some (s.next_page_id_, f),
       { s with
         pages_ := fun g => if g = f then
           { data_ := zeroData, page_id_ := s.next_page_id_, pin_count_ := 1,
             is_dirty_ := false } else s.pages_ g,
         page_table_ := s.page_table_.Insert s.next_page_id_ f,
         replacer_ := (s.replacer_.SetEvictable f false).RecordAccess f,
         free_list_ := rest,
         next_page_id_ := wrapPageId (s.next_page_id_ + 1) }) := by
  have hfull : s.IsFullPage = false := by simp [IsFullPage, hfl]
  simp [NewPgImp_eq, hfull, hfl, GetListFront, AllocateNewFrame, AllocatePage, setPage]

/-- The path of `NewPgImp` that evicts the victim `f`. -/
theorem NewPgImp_evict (s : BufferPoolManagerInstance) (f : frame_id_t)
    (hfl : s.free_list_ = []) (hv : s.replacer_.victim = some f) :
    s.NewPgImp =
      (some (s.next_page_id_, f),
       { s with
         pages_ := fun g => if g = f then
           { data_ := zeroData, page_id_ := s.next_page_id_, pin_count_ := 1,
             is_dirty_ := false } else s.pages_ g,
         page_table_ := (s.page_table_.Remove (s.pages_ f).page_id_).Insert s.next_page_id_ f,
         replacer_ := ((s.replacer_.Remove f).SetEvictable f false).RecordAccess f,
         disk_manager_ := flushedIfDirty s.disk_manager_ (s.pages_ f),
         next_page_id_ := wrapPageId (s.next_page_id_ + 1) }) := by
  have hfull : s.IsFullPage = false := by simp [IsFullPage, hv]
  simp [NewPgImp_eq, hfull, hfl, GetAndEvict, LRUKReplacer.Evict, hv, AllocateNewFrame,
    AllocatePage, setPage]

/-- `UnpinPgImp` changes no page id. -/
theorem UnpinPgImp_page_id (s : BufferPoolManagerInstance) (q : page_id_t) (d : Bool)
    (g : frame_id_t) : ((s.UnpinPgImp q d).2.pages_ g).page_id_ = (s.pages_ g).page_id_ := by
  unfold UnpinPgImp
  cases hq : s.page_table_.Find q with
  | none => rfl
  | some f =>
    by_cases hg : g = f
    · subst hg
      cases d <;> simp only [] <;> split_ifs <;> simp
    · cases d <;> simp only [] <;> split_ifs <;> simp [setPage, hg]

/-- `UnpinPgImp` leaves the page table, the free list, the storage collaborator
and the id counter. -/
theorem UnpinPgImp_frame (s : BufferPoolManagerInstance) (q : page_id_t) (d : Bool) :
    (s.UnpinPgImp q d).2.page_table_ = s.page_table_ ∧
    (s.UnpinPgImp q d).2.free_list_ = s.free_list_ ∧
    (s.UnpinPgImp q d).2.disk_manager_ = s.disk_manager_ ∧
    (s.UnpinPgImp q d).2.next_page_id_ = s.next_page_id_ := by
  unfold UnpinPgImp
  cases hq : s.page_table_.Find q with
  | none => exact ⟨rfl, rfl, rfl, rfl⟩
  | some f => cases d <;> simp only [] <;> split_ifs <;> simp

/-- The path of `DeletePgImp` that deletes, as one state update. -/
theorem DeletePgImp_unpinned (s : BufferPoolManagerInstance) (p : page_id_t) (f : frame_id_t)
    (hres : s.page_table_ p = some f) (hpin : ¬ (s.pages_ f).pin_count_ > 0) :
    s.DeletePgImp p =
      (true,
       { s with
         pages_ := fun g => if g = f then Page.fresh else s.pages_ g,
         page_table_ := s.page_table_.Remove p,
         replacer_ := (s.replacer_.Remove f).SetEvictable f true,
         free_list_ := f :: s.free_list_,
         disk_manager_ := s.disk_manager_.DeallocatePage p }) := by
  simp [DeletePgImp, PageTable.Find, hres, hpin, setPage, DeallocatePage, Page.fresh]
  funext g
  split <;> rfl

/-- A replacer in which no tracked frame is evictable has no victim. -/
theorem victim_none_of_no_evictable (r : LRUKReplacer)
    (h : ∀ f, f < r.replacer_size_ → r.evictable f = false) : r.victim = none := by
  have hc : r.candidates = [] := by
    unfold LRUKReplacer.candidates
    rw [List.filter_eq_nil_iff]
    intro f hf
    simp [h f (List.mem_range.mp hf)]
  simp [LRUKReplacer.victim, hc, pickBest]

/-- C5 (pool exhaustion): in a state where the free list is empty, every frame of
the pool has a positive pin count and only unpinned frames of the pool are
evictable (so no frame is evictable), `NewPgImp` and `FetchPgImp p` for every
non-resident `p` return no frame and leave the whole state (frames, page table,
free list, replacer, storage, id counter) as it was. -/
theorem pool_exhausted (s : BufferPoolManagerInstance) (hfl : s.free_list_ = [])
    (hpin : ∀ f, f < s.pool_size_ → 0 < (s.pages_ f).pin_count_)
    (hinv : EvictableOnlyUnpinned s) :
    s.NewPgImp = (none, s) ∧ ∀ p, s.page_table_ p = none → s.FetchPgImp p = (none, s) := by
  have hnone : s.replacer_.victim = none := by
    apply victim_none_of_no_evictable
    intro f _
    cases hev : s.replacer_.evictable f with
    | false => rfl
    | true =>
      obtain ⟨hlt, hz⟩ := hinv f hev
      have := hpin f hlt
      omega
  have hfull : s.IsFullPage = true := by simp [IsFullPage, hfl, hnone]
  refine ⟨by simp [NewPgImp_eq, hfull], ?_⟩
  intro p hp
  simp [FetchPgImp, PageTable.Find, hp, hfull]

/-- In the sample pool `pinned1` no frame is evictable. -/
theorem pinned1_not_evictable (f : frame_id_t) : Sample.pinned1.replacer_.evictable f = false := by
  by_cases hf : f = 0
  · subst hf
    decide
  · simp [Sample.pinned1, NewPgImp_eq, AllocateNewFrame, AllocatePage, GetListFront,
      IsFullPage, BufferPoolManagerInstance.new, LRUKReplacer.new, LRUKReplacer.SetEvictable,
      LRUKReplacer.RecordAccess, setPage, List.range_succ]

/-- Witness of C5 on the one-frame pool whose only frame is pinned. -/
theorem pool_exhausted_witness :
    Sample.pinned1.free_list_ = [] ∧
    (∀ f, f < Sample.pinned1.pool_size_ → 0 < (Sample.pinned1.pages_ f).pin_count_) ∧
    Sample.pinned1.NewPgImp = (none, Sample.pinned1) ∧
    Sample.pinned1.FetchPgImp 5 = (none, Sample.pinned1) :=
  have h := pool_exhausted Sample.pinned1 (by decide) (by decide)
    (fun f hf => absurd hf (by simp [pinned1_not_evictable f]))
  ⟨by decide, by decide, h.1, h.2 5 (by decide)⟩

/-! ## FlushPgImp -/

/-- The path of `FlushPgImp` on a resident page, as one state update. -/
theorem FlushPgImp_hit (s : BufferPoolManagerInstance) (p : page_id_t) (f : frame_id_t)
    (hres : s.page_table_ p = some f) :
    s.FlushPgImp p =
      (true,
       { s with
         pages_ := fun g => if g = f then { s.pages_ f with is_dirty_ := false } else s.pages_ g,
         disk_manager_ := s.disk_manager_.WritePage p (s.pages_ f).data_ }) := by
  simp [FlushPgImp, PageTable.Find, hres, setPage]

/-- C6: when `p` is resident in frame `f`, `FlushPgImp p` returns `true`, issues
exactly one request, a write of the frame's current bytes under `p` (so storage
holds those bytes under `p` and what it held under other ids), clears the
frame's dirty flag, and leaves the frame's bytes, page id and pin count, every
other frame, the page table, the free list and the replacer unchanged. -/
theorem flush_resident (s : BufferPoolManagerInstance) (p : page_id_t) (f : frame_id_t)
    (hres : s.page_table_ p = some f) :
    (s.FlushPgImp p).1 = true ∧
    (s.FlushPgImp p).2.disk_manager_.content p = (s.pages_ f).data_ ∧
    (∀ q, q ≠ p → (s.FlushPgImp p).2.disk_manager_.content q = s.disk_manager_.content q) ∧
    (s.FlushPgImp p).2.disk_manager_.requests =
      DiskOp.write p (s.pages_ f).data_ :: s.disk_manager_.requests ∧
    ((s.FlushPgImp p).2.pages_ f).is_dirty_ = false ∧
    ((s.FlushPgImp p).2.pages_ f).data_ = (s.pages_ f).data_ ∧
    ((s.FlushPgImp p).2.pages_ f).page_id_ = (s.pages_ f).page_id_ ∧
    ((s.FlushPgImp p).2.pages_ f).pin_count_ = (s.pages_ f).pin_count_ ∧
    (∀ g, g ≠ f → (s.FlushPgImp p).2.pages_ g = s.pages_ g) ∧
    (s.FlushPgImp p).2.page_table_ = s.page_table_ ∧
    (s.FlushPgImp p).2.free_list_ = s.free_list_ ∧
    (s.FlushPgImp p).2.replacer_ = s.replacer_ := by
  rw [FlushPgImp_hit s p f hres]
  refine ⟨rfl, ?_, ?_, rfl, ?_, ?_, ?_, ?_, ?_, rfl, rfl, rfl⟩
  · simp [DiskManager.WritePage]
  · intro q hq
    simp [DiskManager.WritePage, hq]
  · simp
  · simp
  · simp
  · simp
  · intro g hg
    simp [hg]

/-- Witness of C6 on the one-frame pool holding page 0. -/
theorem flush_resident_witness :
    Sample.pinned1.page_table_ 0 = some 0 ∧
    (Sample.pinned1.FlushPgImp 0).1 = true ∧
    (Sample.pinned1.FlushPgImp 0).2.disk_manager_.content 0 = (Sample.pinned1.pages_ 0).data_ :=
  have h := flush_resident Sample.pinned1 0 0 (by decide)
  ⟨by decide, h.1, h.2.1⟩

/-! ## DeletePgImp -/

/-- C7: when `p` is resident in frame `f` with pin count `0`, `DeletePgImp p`
returns `true`; afterwards `p` has no page table entry, `f` is in the free list
(at its front), `f` carries the empty sentinel id with pin count `0`, dirty flag
`false` and all-zero bytes, the replacer holds no access history for `f`, and a
deallocation notice for `p` is the one request issued to the storage
collaborator; every other page table entry and every other frame is unchanged. -/
theorem delete_unpinned_resident (s : BufferPoolManagerInstance) (p : page_id_t)
    (f : frame_id_t) (hres : s.page_table_ p = some f)
    (hzero : (s.pages_ f).pin_count_ = 0) :
    (s.DeletePgImp p).1 = true ∧
    (s.DeletePgImp p).2.page_table_ p = none ∧
    (s.DeletePgImp p).2.free_list_ = f :: s.free_list_ ∧
    f ∈ (s.DeletePgImp p).2.free_list_ ∧
    ((s.DeletePgImp p).2.pages_ f).page_id_ = INVALID_PAGE_ID ∧
    ((s.DeletePgImp p).2.pages_ f).pin_count_ = 0 ∧
    ((s.DeletePgImp p).2.pages_ f).is_dirty_ = false ∧
    ((s.DeletePgImp p).2.pages_ f).data_ = List.replicate BUSTUB_PAGE_SIZE 0 ∧
    (s.DeletePgImp p).2.replacer_.history f = [] ∧
    (s.DeletePgImp p).2.disk_manager_.requests = DiskOp.dealloc p :: s.disk_manager_.requests ∧
    (∀ q, q ≠ p → (s.DeletePgImp p).2.page_table_ q = s.page_table_ q) ∧
    (∀ g, g ≠ f → (s.DeletePgImp p).2.pages_ g = s.pages_ g) := by
  have hpin : ¬ (s.pages_ f).pin_count_ > 0 := by omega
  rw [DeletePgImp_unpinned s p f hres hpin]
  refine ⟨rfl, ?_, rfl, ?_, ?_, ?_, ?_, ?_, ?_, rfl, ?_, ?_⟩
  · simp [PageTable.Remove]
  · simp
  · simp [Page.fresh]
  · simp [Page.fresh]
  · simp [Page.fresh]
  · simp [Page.fresh, zeroData]
  · simp [LRUKReplacer.Remove, LRUKReplacer.SetEvictable]
  · intro q hq
    simp [PageTable.Remove, hq]
  · intro g hg
    simp [hg]

/-- Witness of C7 on the one-frame pool holding page 0 unpinned. -/
theorem delete_unpinned_resident_witness :
    Sample.unpinned1.page_table_ 0 = some 0 ∧
    (Sample.unpinned1.pages_ 0).pin_count_ = 0 ∧
    (Sample.unpinned1.DeletePgImp 0).1 = true ∧
    (Sample.unpinned1.DeletePgImp 0).2.page_table_ 0 = none ∧
    (Sample.unpinned1.DeletePgImp 0).2.free_list_ = [0] :=
  have h := delete_unpinned_resident Sample.unpinned1 0 0 (by decide) (by decide)
  ⟨by decide, by decide, h.1, h.2.1, h.2.2.1.trans (by decide)⟩

/-- C8: `DeletePgImp p` returns `false` exactly when `p` is resident in a frame
with a positive pin count; for a non-resident `p` it returns `true`; and in both
of these cases (nothing is deleted) the whole state is left as it was, so a
pinned page stays resident. -/
theorem delete_refusal (s : BufferPoolManagerInstance) (p : page_id_t) :
    ((s.DeletePgImp p).1 = false ↔
      ∃ f, s.page_table_ p = some f ∧ 0 < (s.pages_ f).pin_count_) ∧
    (s.page_table_ p = none → s.DeletePgImp p = (true, s)) ∧
    (∀ f, s.page_table_ p = some f → 0 < (s.pages_ f).pin_count_ →
      s.DeletePgImp p = (false, s) ∧ (s.DeletePgImp p).2.page_table_ p = some f) := by
  refine ⟨?_, ?_, ?_⟩
  · cases hq : s.page_table_ p with
    | none => simp [DeletePgImp, PageTable.Find, hq]
    | some f =>
      by_cases hpin : (s.pages_ f).pin_count_ > 0
      · simp [DeletePgImp, PageTable.Find, hq, hpin]
      · rw [DeletePgImp_unpinned s p f hq hpin]
        simpa using hpin
  · intro hq
    simp [DeletePgImp, PageTable.Find, hq]
  · intro f hq hpin
    have hpin' : (s.pages_ f).pin_count_ > 0 := hpin
    simp [DeletePgImp, PageTable.Find, hq, hpin']

/-! ## UnpinPgImp on an unpinned resident page -/

/-- C9, the code at the failing input: in the one-frame pool holding page 0
unpinned and clean, `UnpinPgImp 0 true` returns `false` and yet sets the dirty
flag of frame 0, so the state after the failed call is not the state before. -/
theorem unpin_failure_sets_dirty :
    Sample.unpinned1.page_table_ 0 = some 0 ∧
    (Sample.unpinned1.pages_ 0).pin_count_ = 0 ∧
    (Sample.unpinned1.pages_ 0).is_dirty_ = false ∧
    (Sample.unpinned1.UnpinPgImp 0 true).1 = false ∧
    ((Sample.unpinned1.UnpinPgImp 0 true).2.pages_ 0).is_dirty_ = true ∧
    (Sample.unpinned1.UnpinPgImp 0 true).2 ≠ Sample.unpinned1 := by
  refine ⟨by decide, by decide, by decide, by decide, by decide, ?_⟩
  intro h
  have hd : ((Sample.unpinned1.UnpinPgImp 0 true).2.pages_ 0).is_dirty_
      = (Sample.unpinned1.pages_ 0).is_dirty_ := by rw [h]
  revert hd
  decide

/-- C10: when `p` is resident in frame `f` with pin count `0`, `UnpinPgImp p
is_dirty` returns `false` for either value of `is_dirty`, the frame's pin count
stays `0`, and the replacer (hence every evictable flag) is left as it was. -/
theorem unpin_unpinned_fails (s : BufferPoolManagerInstance) (p : page_id_t) (f : frame_id_t)
    (is_dirty : Bool) (hres : s.page_table_ p = some f)
    (hzero : (s.pages_ f).pin_count_ = 0) :
    (s.UnpinPgImp p is_dirty).1 = false ∧
    ((s.UnpinPgImp p is_dirty).2.pages_ f).pin_count_ = 0 ∧
    (s.UnpinPgImp p is_dirty).2.replacer_ = s.replacer_ ∧
    (s.UnpinPgImp p is_dirty).2.replacer_.evictable f = s.replacer_.evictable f := by
  cases is_dirty <;> simp [UnpinPgImp, PageTable.Find, hres, hzero]

/-- Witness of C10 on the one-frame pool holding page 0 unpinned. -/
theorem unpin_unpinned_fails_witness :
    Sample.unpinned1.page_table_ 0 = some 0 ∧
    (Sample.unpinned1.pages_ 0).pin_count_ = 0 ∧
    (Sample.unpinned1.UnpinPgImp 0 false).1 = false ∧
    (Sample.unpinned1.UnpinPgImp 0 true).1 = false :=
  ⟨by decide, by decide,
   (unpin_unpinned_fails Sample.unpinned1 0 0 false (by decide) (by decide)).1,
   (unpin_unpinned_fails Sample.unpinned1 0 0 true (by decide) (by decide)).1⟩

/-! ## The exhaustion hypothesis holds in every reachable state -/

/-- The choice of `pickBest` is an element of the list. -/
theorem pickBest_mem (better : frame_id_t → frame_id_t → Bool) (l : List frame_id_t)
    (f : frame_id_t) (h : pickBest better l = some f) : f ∈ l := by
  cases l with
  | nil => simp [pickBest] at h
  | cons a l =>
    simp only [pickBest, Option.some.injEq] at h
    subst h
    have key : ∀ (l : List frame_id_t) (a : frame_id_t),
        l.foldl (fun best g => if better g best then g else best) a ∈ a :: l := by
      intro l
      induction l with
      | nil => intro a; simp
      | cons b l ih =>
        intro a
        rw [List.foldl_cons]
        have := ih (if better b a then b else a)
        split_ifs at this ⊢ <;> simp at this ⊢ <;> tauto
    exact key l a

/-- A victim is an evictable frame. -/
theorem victim_evictable (r : LRUKReplacer) (f : frame_id_t) (h : r.victim = some f) :
    r.evictable f = true := by
  have hc : f ∈ r.candidates := by
    unfold LRUKReplacer.victim at h
    simp only [] at h
    split at h
    · rename_i g hg
      simp only [Option.some.injEq] at h
      subst h
      exact (List.mem_filter.mp (pickBest_mem _ _ _ hg)).1
    · exact pickBest_mem _ _ _ h
  exact (List.mem_filter.mp hc).2

/-- The evictable flags after the replacer calls made when a frame is installed. -/
theorem install_evictable (r : LRUKReplacer) (f g : frame_id_t) :
    ((r.SetEvictable f false).RecordAccess f).evictable g =
      if g = f then false else r.evictable g := rfl

/-- Both consistency conditions pass to a state in which frame `f` of the pool
has been installed: pinned, non-evictable, mapped by the page
table, with a free list that lost at most elements. -/
theorem installed_consistent (s t : BufferPoolManagerInstance)
    (f : frame_id_t) (pg : Page) (hs : EvictableOnlyUnpinned s ∧ FramesInPool s)
    (hf : f < s.pool_size_) (hpool : t.pool_size_ = s.pool_size_)
    (hpages : ∀ g, t.pages_ g = if g = f then pg else s.pages_ g)
    (hev : ∀ g, t.replacer_.evictable g = if g = f then false else s.replacer_.evictable g)
    (htable : ∀ q g, t.page_table_ q = some g → g = f ∨ s.page_table_ q = some g)
    (hfree : ∀ g, g ∈ t.free_list_ → g ∈ s.free_list_) :
    EvictableOnlyUnpinned t ∧ FramesInPool t := by
  obtain ⟨ha, hb, hc⟩ := hs
  refine ⟨?_, ?_, ?_⟩
  · intro g hg
    rw [hev] at hg
    by_cases hgf : g = f
    · simp [hgf] at hg
    · simp only [hgf, if_false] at hg
      rw [hpool, hpages, if_neg hgf]
      exact ha g hg
  · intro q g hq
    rw [hpool]
    rcases htable q g hq with h | h
    · rw [h]; exact hf
    · exact hb q g h
  · intro g hg
    rw [hpool]
    exact hc g (hfree g hg)

/-- `FetchPgImp` keeps both consistency conditions. -/
theorem FetchPgImp_consistent (s : BufferPoolManagerInstance) (p : page_id_t)
    (hs : EvictableOnlyUnpinned s ∧ FramesInPool s) :
    EvictableOnlyUnpinned (s.FetchPgImp p).2 ∧ FramesInPool (s.FetchPgImp p).2 := by
  cases hq : s.page_table_ p with
  | some f =>
    rw [FetchPgImp_hit s p f hq]
    refine installed_consistent s _ f _ hs (hs.2.1 p f hq) rfl (fun g => rfl)
      (fun g => install_evictable _ f g) (fun q g h => Or.inr h) (fun g h => h)
  | none =>
    cases hfull : s.IsFullPage with
    | true => simpa [FetchPgImp, PageTable.Find, hq, hfull] using hs
    | false =>
      rcases not_full_cases s hfull with ⟨f, rest, hfl⟩ | ⟨hfl, f, hv⟩
      · rw [FetchPgImp_miss_free s p f rest hq hfl]
        refine installed_consistent s _ f _ hs (hs.2.2 f (by simp [hfl])) rfl (fun g => rfl)
          (fun g => install_evictable _ f g) ?_ ?_
        · intro q g h
          simp only [PageTable.Insert] at h
          split_ifs at h
          · left; simpa using h.symm
          · right; exact h
        · intro g hg
          simp only [] at hg
          rw [hfl]
          exact List.mem_cons_of_mem _ hg
      · rw [FetchPgImp_miss_evict s p f hq hfl hv]
        refine installed_consistent s _ f _ hs (hs.1 f (victim_evictable _ f hv)).1 rfl
          (fun g => rfl) (fun g => install_evictable _ f g) ?_ (fun g h => h)
        intro q g h
        simp only [PageTable.Insert, PageTable.Remove] at h
        split_ifs at h
        · left; simpa using h.symm
        · right; exact h

/-- `NewPgImp` keeps both consistency conditions. -/
theorem NewPgImp_consistent (s : BufferPoolManagerInstance)
    (hs : EvictableOnlyUnpinned s ∧ FramesInPool s) :
    EvictableOnlyUnpinned s.NewPgImp.2 ∧ FramesInPool s.NewPgImp.2 := by
  cases hfull : s.IsFullPage with
  | true => simpa [NewPgImp_eq, hfull] using hs
  | false =>
    rcases not_full_cases s hfull with ⟨f, rest, hfl⟩ | ⟨hfl, f, hv⟩
    · rw [NewPgImp_free s f rest hfl]
      refine installed_consistent s _ f _ hs (hs.2.2 f (by simp [hfl])) rfl
        (fun g => rfl) (fun g => install_evictable _ f g) ?_ ?_
      · intro q g h
        simp only [PageTable.Insert] at h
        split_ifs at h
        · left; simpa using h.symm
        · right; exact h
      · intro g hg
        simp only [] at hg
        rw [hfl]
        exact List.mem_cons_of_mem _ hg
    · rw [NewPgImp_evict s f hfl hv]
      refine installed_consistent s _ f _ hs
        (hs.1 f (victim_evictable _ f hv)).1 rfl (fun g => rfl)
        (fun g => install_evictable _ f g) ?_ (fun g h => h)
      intro q g h
      simp only [PageTable.Insert, PageTable.Remove] at h
      split_ifs at h
      · left; simpa using h.symm
      · right; exact h

/-- Writing a frame's own value back leaves the state. -/
theorem pages_update_self (s : BufferPoolManagerInstance) (f : frame_id_t) :
    { s with pages_ := fun g => if g = f then s.pages_ f else s.pages_ g } = s := by
  have : (fun g => if g = f then s.pages_ f else s.pages_ g) = s.pages_ := by
    funext g
    split
    · next h => rw [h]
    · rfl
  rw [this]

/-- The failing path of `UnpinPgImp`, as one state update: only the dirty flag
of the frame can change. -/
theorem UnpinPgImp_unpinned (s : BufferPoolManagerInstance) (p : page_id_t) (f : frame_id_t)
    (d : Bool) (hres : s.page_table_ p = some f) (hpin : (s.pages_ f).pin_count_ ≤ 0) :
    s.UnpinPgImp p d =
      (false,
       { s with
         pages_ := fun g => if g = f then
           { s.pages_ f with is_dirty_ := (s.pages_ f).is_dirty_ || d } else s.pages_ g }) := by
  cases d
  · simp only [UnpinPgImp, PageTable.Find, hres, hpin, Bool.or_false, if_true, Bool.false_eq_true,
      if_false]
    exact congrArg (Prod.mk false) (pages_update_self s f).symm
  · simp [UnpinPgImp, PageTable.Find, hres, hpin, setPage]

/-- The succeeding path of `UnpinPgImp` on a resident page, as one state update. -/
theorem UnpinPgImp_pinned (s : BufferPoolManagerInstance) (p : page_id_t) (f : frame_id_t)
    (d : Bool) (hres : s.page_table_ p = some f) (hpin : 0 < (s.pages_ f).pin_count_) :
    s.UnpinPgImp p d =
      (true,
       { s with
         pages_ := fun g => if g = f then
           { s.pages_ f with is_dirty_ := (s.pages_ f).is_dirty_ || d,
                             pin_count_ := (s.pages_ f).pin_count_ - 1 } else s.pages_ g,
         replacer_ := if (s.pages_ f).pin_count_ - 1 = 0 then s.replacer_.SetEvictable f true
                      else s.replacer_ }) := by
  have hnot : ¬ (s.pages_ f).pin_count_ ≤ 0 := not_le.mpr hpin
  by_cases hz : (s.pages_ f).pin_count_ - 1 = 0
  · cases d
    · simp [UnpinPgImp, PageTable.Find, hres, hnot, hz, setPage]
    · simp [UnpinPgImp, PageTable.Find, hres, hnot, hz, setPage]
      funext g
      split <;> rfl
  · cases d
    · simp [UnpinPgImp, PageTable.Find, hres, hnot, hz, setPage]
    · simp [UnpinPgImp, PageTable.Find, hres, hnot, hz, setPage]
      funext g
      split <;> rfl

/-- `UnpinPgImp` keeps both consistency conditions. -/
theorem UnpinPgImp_consistent (s : BufferPoolManagerInstance) (p : page_id_t) (d : Bool)
    (hs : EvictableOnlyUnpinned s ∧ FramesInPool s) :
    EvictableOnlyUnpinned (s.UnpinPgImp p d).2 ∧ FramesInPool (s.UnpinPgImp p d).2 := by
  obtain ⟨ha, hb, hc⟩ := hs
  cases hq : s.page_table_ p with
  | none => simpa [UnpinPgImp, PageTable.Find, hq] using ⟨ha, hb, hc⟩
  | some f =>
    have hf := hb p f hq
    by_cases hpin : (s.pages_ f).pin_count_ ≤ 0
    · rw [UnpinPgImp_unpinned s p f d hq hpin]
      refine ⟨?_, hb, hc⟩
      intro g hg
      have := ha g hg
      by_cases hgf : g = f
      · subst hgf
        simpa using this
      · simpa [hgf] using this
    · rw [UnpinPgImp_pinned s p f d hq (not_le.mp hpin)]
      refine ⟨?_, hb, hc⟩
      intro g hg
      by_cases hgf : g = f
      · subst hgf
        refine ⟨hf, ?_⟩
        by_cases hz : (s.pages_ g).pin_count_ - 1 = 0
        · simpa using hz
        · simp only [hz, if_false] at hg
          have := (ha g hg).2
          omega
      · have hev : s.replacer_.evictable g = true := by
          by_cases hz : (s.pages_ f).pin_count_ - 1 = 0
          · simpa [hz, LRUKReplacer.SetEvictable, hgf] using hg
          · simpa [hz] using hg
        simpa [hgf] using ha g hev

/-- `FlushPgImp` keeps both consistency conditions. -/
theorem FlushPgImp_consistent (s : BufferPoolManagerInstance) (p : page_id_t)
    (hs : EvictableOnlyUnpinned s ∧ FramesInPool s) :
    EvictableOnlyUnpinned (s.FlushPgImp p).2 ∧ FramesInPool (s.FlushPgImp p).2 := by
  obtain ⟨ha, hb, hc⟩ := hs
  cases hq : s.page_table_ p with
  | none => simpa [FlushPgImp, PageTable.Find, hq] using ⟨ha, hb, hc⟩
  | some f =>
    rw [FlushPgImp_hit s p f hq]
    refine ⟨?_, hb, hc⟩
    intro g hg
    have := ha g hg
    by_cases hgf : g = f
    · subst hgf
      simpa using this
    · simpa [hgf] using this

/-- `FlushAllPgsImp` keeps both consistency conditions. -/
theorem FlushAllPgsImp_consistent (s : BufferPoolManagerInstance)
    (hs : EvictableOnlyUnpinned s ∧ FramesInPool s) :
    EvictableOnlyUnpinned s.FlushAllPgsImp ∧ FramesInPool s.FlushAllPgsImp := by
  unfold FlushAllPgsImp
  generalize List.range s.pool_size_ = l
  induction l generalizing s with
  | nil => exact hs
  | cons i l ih =>
    rw [List.foldl_cons]
    exact ih _ (FlushPgImp_consistent s _ hs)

/-- `DeletePgImp` keeps both consistency conditions. -/
theorem DeletePgImp_consistent (s : BufferPoolManagerInstance) (p : page_id_t)
    (hs : EvictableOnlyUnpinned s ∧ FramesInPool s) :
    EvictableOnlyUnpinned (s.DeletePgImp p).2 ∧ FramesInPool (s.DeletePgImp p).2 := by
  obtain ⟨ha, hb, hc⟩ := hs
  cases hq : s.page_table_ p with
  | none => simpa [DeletePgImp, PageTable.Find, hq] using ⟨ha, hb, hc⟩
  | some f =>
    by_cases hpin : (s.pages_ f).pin_count_ > 0
    · simpa [DeletePgImp, PageTable.Find, hq, hpin] using ⟨ha, hb, hc⟩
    · rw [DeletePgImp_unpinned s p f hq hpin]
      refine ⟨?_, ?_, ?_⟩
      · intro g hg
        by_cases hgf : g = f
        · subst hgf
          exact ⟨hb p g hq, by simp [Page.fresh]⟩
        · have hev : s.replacer_.evictable g = true := by
            simpa [LRUKReplacer.SetEvictable, LRUKReplacer.Remove, hgf] using hg
          simpa [hgf] using ha g hev
      · intro q g hqg
        simp only [PageTable.Remove] at hqg
        split_ifs at hqg
        exact hb q g hqg
      · intro g hg
        simp only [List.mem_cons] at hg
        rcases hg with hg | hg
        · rw [hg]; exact hb p f hq
        · exact hc g hg

/-- Every public call keeps both consistency conditions. -/
theorem step_consistent (s : BufferPoolManagerInstance) (op : Op)
    (hs : EvictableOnlyUnpinned s ∧ FramesInPool s) :
    EvictableOnlyUnpinned (step s op) ∧ FramesInPool (step s op) := by
  cases op with
  | newPage => exact NewPgImp_consistent s hs
  | fetchPage q => exact FetchPgImp_consistent s q hs
  | unpinPage q d => exact UnpinPgImp_consistent s q d hs
  | flushPage q => exact FlushPgImp_consistent s q hs
  | flushAllPages => exact FlushAllPgsImp_consistent s hs
  | deletePage q => exact DeletePgImp_consistent s q hs

/-- In every state reached from a freshly constructed pool by public calls, only
unpinned frames of the pool are evictable, and the page table and the free list
hold frames of the pool only. -/
theorem reachable_consistent (pool_size replacer_k : Nat) (disk_manager : DiskManager)
    (ops : List Op) :
    EvictableOnlyUnpinned (run (BufferPoolManagerInstance.new pool_size disk_manager replacer_k) ops) ∧
    FramesInPool (run (BufferPoolManagerInstance.new pool_size disk_manager replacer_k) ops) := by
  have h0 : EvictableOnlyUnpinned (BufferPoolManagerInstance.new pool_size disk_manager replacer_k) ∧
      FramesInPool (BufferPoolManagerInstance.new pool_size disk_manager replacer_k) := by
    refine ⟨?_, ?_, ?_⟩
    · intro f hf
      simp [BufferPoolManagerInstance.new, LRUKReplacer.new] at hf
    · intro p f hpf
      simp [BufferPoolManagerInstance.new] at hpf
    · intro f hf
      simpa [BufferPoolManagerInstance.new] using hf
  generalize BufferPoolManagerInstance.new pool_size disk_manager replacer_k = s at h0
  unfold run
  induction ops generalizing s with
  | nil => exact h0
  | cons op rest ih =>
    rw [List.foldl_cons]
    exact ih _ (step_consistent s op h0)

/-! ## Calls on a page that is not resident -/

/-- C11: when `p` has no page table entry, `UnpinPgImp p is_dirty` returns `true`
for either value of `is_dirty` and is a no-op: the whole state (frames, page
table, free list, replacer, storage contents and requests, id counter) is the
state before the call. -/
theorem unpin_not_resident (s : BufferPoolManagerInstance) (p : page_id_t) (is_dirty : Bool)
    (hmiss : s.page_table_ p = none) : s.UnpinPgImp p is_dirty = (true, s) := by
  simp [UnpinPgImp, PageTable.Find, hmiss]

/-- Witness of C11 on the one-frame pool holding page 0: page 5 is not resident. -/
theorem unpin_not_resident_witness :
    Sample.pinned1.page_table_ 5 = none ∧
    Sample.pinned1.UnpinPgImp 5 true = (true, Sample.pinned1) ∧
    Sample.pinned1.UnpinPgImp 5 false = (true, Sample.pinned1) :=
  ⟨by decide, unpin_not_resident Sample.pinned1 5 true (by decide),
   unpin_not_resident Sample.pinned1 5 false (by decide)⟩

/-- C12: when `p` has no page table entry, `FlushPgImp p` returns `false` and has
no side effect: the whole state is the state before the call, so no request
(and no write in particular) reaches the storage collaborator and frames, page
table, free list and replacer are unchanged. -/
theorem flush_not_resident (s : BufferPoolManagerInstance) (p : page_id_t)
    (hmiss : s.page_table_ p = none) :
    s.FlushPgImp p = (false, s) ∧
    (s.FlushPgImp p).2.disk_manager_.requests = s.disk_manager_.requests := by
  simp [FlushPgImp, PageTable.Find, hmiss]

/-- Witness of C12 on the one-frame pool holding page 0: page 5 is not resident. -/
theorem flush_not_resident_witness :
    Sample.pinned1.page_table_ 5 = none ∧
    Sample.pinned1.FlushPgImp 5 = (false, Sample.pinned1) :=
  ⟨by decide, (flush_not_resident Sample.pinned1 5 (by decide)).1⟩

/-! ## FlushAllPgsImp -/

/-- A state differs from itself by no flush. -/
theorem FlushedFrom_refl (s : BufferPoolManagerInstance) : FlushedFrom s s :=
  ⟨rfl, rfl, rfl, rfl, rfl, fun _ => ⟨rfl, rfl, rfl, fun h => h⟩,
   ⟨[], rfl, fun _ h => absurd h (List.not_mem_nil _)⟩, fun _ => Or.inl rfl⟩

/-- One more `FlushPgImp` keeps the difference from `s` a difference by flushes. -/
theorem FlushedFrom_flush (s t : BufferPoolManagerInstance) (q : page_id_t)
    (h : FlushedFrom s t) : FlushedFrom s (t.FlushPgImp q).2 := by
  obtain ⟨e1, e2, e3, e4, e5, hp, ⟨added, hreq, hadded⟩, hc⟩ := h
  cases hq : t.page_table_ q with
  | none =>
    have : t.FlushPgImp q = (false, t) := by simp [FlushPgImp, PageTable.Find, hq]
    rw [this]
    exact ⟨e1, e2, e3, e4, e5, hp, ⟨added, hreq, hadded⟩, hc⟩
  | some f =>
    rw [FlushPgImp_hit t q f hq]
    have hsq : s.page_table_ q = some f := by rw [← e1]; exact hq
    refine ⟨e1, e2, e3, e4, e5, ?_, ?_, ?_⟩
    · intro g
      by_cases hg : g = f
      · subst hg
        simpa using ⟨(hp g).1, (hp g).2.1, (hp g).2.2.1⟩
      · simpa [hg] using hp g
    · refine ⟨DiskOp.write q (s.pages_ f).data_ :: added, ?_, ?_⟩
      · simp [DiskManager.WritePage, hreq, (hp f).1]
      · intro op hop
        rcases List.mem_cons.mp hop with hop | hop
        · exact ⟨q, f, hsq, hop⟩
        · exact hadded op hop
    · intro r
      by_cases hr : r = q
      · subst hr
        right
        exact ⟨f, hsq, by simp [DiskManager.WritePage, (hp f).1]⟩
      · simpa [DiskManager.WritePage, hr] using hc r

/-- Once page `p` of frame `f` has been flushed, further flushes keep the frame
clean and the stored bytes equal to the frame's. -/
theorem flushed_stays (s t : BufferPoolManagerInstance) (p q : page_id_t) (f : frame_id_t)
    (h : FlushedFrom s t) (hres : s.page_table_ p = some f)
    (hdone : (t.pages_ f).is_dirty_ = false ∧ t.disk_manager_.content p = (s.pages_ f).data_) :
    ((t.FlushPgImp q).2.pages_ f).is_dirty_ = false ∧
    (t.FlushPgImp q).2.disk_manager_.content p = (s.pages_ f).data_ := by
  obtain ⟨e1, _, _, _, _, hp, _, _⟩ := h
  cases hq : t.page_table_ q with
  | none =>
    have : t.FlushPgImp q = (false, t) := by simp [FlushPgImp, PageTable.Find, hq]
    rw [this]
    exact hdone
  | some g =>
    rw [FlushPgImp_hit t q g hq]
    constructor
    · by_cases hfg : f = g
      · simp [hfg]
      · simpa [hfg] using hdone.1
    · by_cases hpq : p = q
      · subst hpq
        have hg : g = f := by
          rw [e1, hres] at hq
          exact (Option.some.inj hq).symm
        simp [DiskManager.WritePage, hg, (hp f).1]
      · simpa [DiskManager.WritePage, hpq] using hdone.2

/-- The loop of `FlushAllPgsImp` over any list of frame indices, started in a
state that differs from `s` by flushes: the result still differs from `s` by
flushes, and every page whose frame index is in the list has been flushed. -/
theorem flush_loop (s : BufferPoolManagerInstance)
    (hid : ∀ p f, s.page_table_ p = some f → (s.pages_ f).page_id_ = p)
    (l : List frame_id_t) (t : BufferPoolManagerInstance) (h : FlushedFrom s t) :
    FlushedFrom s (l.foldl (fun st i => (st.FlushPgImp (st.pages_ i).page_id_).2) t) ∧
    ∀ p f, s.page_table_ p = some f →
      (f ∈ l ∨ ((t.pages_ f).is_dirty_ = false ∧
        t.disk_manager_.content p = (s.pages_ f).data_)) →
      ((l.foldl (fun st i => (st.FlushPgImp (st.pages_ i).page_id_).2) t).pages_ f).is_dirty_
        = false ∧
      (l.foldl (fun st i => (st.FlushPgImp (st.pages_ i).page_id_).2) t).disk_manager_.content p
        = (s.pages_ f).data_ := by
  induction l generalizing t with
  | nil =>
    refine ⟨h, ?_⟩
    intro p f _ hpf
    rcases hpf with hpf | hpf
    · exact absurd hpf (List.not_mem_nil _)
    · exact hpf
  | cons i l ih =>
    rw [List.foldl_cons]
    have h1 := FlushedFrom_flush s t (t.pages_ i).page_id_ h
    refine ⟨(ih _ h1).1, ?_⟩
    intro p f hres hpf
    apply (ih _ h1).2 p f hres
    rcases hpf with hpf | hpf
    · rcases List.mem_cons.mp hpf with hfi | hfl
      · right
        subst hfi
        have hidt : (t.pages_ f).page_id_ = p := by
          rw [(h.2.2.2.2.2.1 f).2.1]; exact hid p f hres
        have htq : t.page_table_ p = some f := by rw [h.1]; exact hres
        rw [hidt, FlushPgImp_hit t p f htq]
        simp [DiskManager.WritePage, (h.2.2.2.2.2.1 f).1]
      · exact Or.inl hfl
    · right
      exact flushed_stays s t p _ f h hres hpf

/-- C13: in a state where each page table entry `p -> f` has frame `f` carrying
id `p`, every frame of the free list carries the empty sentinel id, and the
sentinel has no page table entry, `FlushAllPgsImp` leaves every resident page
(of a frame of the pool) with dirty flag `false` and with storage holding its
frame's bytes under its id; every request it issues is a write of a resident
page's frame bytes under that page's id, none under the id of a free frame; and
it changes no pin count, bytes, page id, page table entry, free list entry or
replacer state. -/
theorem flush_all_pages (s : BufferPoolManagerInstance)
    (hid : ∀ p f, s.page_table_ p = some f → (s.pages_ f).page_id_ = p)
    (hfree : ∀ i, i ∈ s.free_list_ → (s.pages_ i).page_id_ = INVALID_PAGE_ID)
    (hinv : s.page_table_ INVALID_PAGE_ID = none) :
    (∀ p f, s.page_table_ p = some f → f < s.pool_size_ →
      (s.FlushAllPgsImp.pages_ f).is_dirty_ = false ∧
      s.FlushAllPgsImp.disk_manager_.content p = (s.FlushAllPgsImp.pages_ f).data_) ∧
    (∃ added, s.FlushAllPgsImp.disk_manager_.requests = added ++ s.disk_manager_.requests ∧
      ∀ op, op ∈ added →
        (∃ p f, s.page_table_ p = some f ∧ op = DiskOp.write p (s.pages_ f).data_) ∧
        ∀ i, i ∈ s.free_list_ → ∀ bytes, op ≠ DiskOp.write (s.pages_ i).page_id_ bytes) ∧
    (∀ g, (s.FlushAllPgsImp.pages_ g).pin_count_ = (s.pages_ g).pin_count_ ∧
      (s.FlushAllPgsImp.pages_ g).data_ = (s.pages_ g).data_ ∧
      (s.FlushAllPgsImp.pages_ g).page_id_ = (s.pages_ g).page_id_) ∧
    s.FlushAllPgsImp.page_table_ = s.page_table_ ∧
    s.FlushAllPgsImp.free_list_ = s.free_list_ ∧
    s.FlushAllPgsImp.replacer_ = s.replacer_ := by
  have hloop := flush_loop s hid (List.range s.pool_size_) s (FlushedFrom_refl s)
  obtain ⟨⟨e1, e2, e3, _, _, hp, ⟨added, hreq, hadded⟩, _⟩, hdone⟩ := hloop
  refine ⟨?_, ⟨added, hreq, ?_⟩, ?_, e1, e2, e3⟩
  · intro p f hres hf
    have := hdone p f hres (Or.inl (List.mem_range.mpr hf))
    refine ⟨this.1, ?_⟩
    unfold FlushAllPgsImp
    rw [this.2, (hp f).1]
  · intro op hop
    refine ⟨hadded op hop, ?_⟩
    intro i hi bytes hop'
    obtain ⟨p, f, hres, hw⟩ := hadded op hop
    rw [hw, hfree i hi] at hop'
    have hp' : p = INVALID_PAGE_ID := by
      injection hop'
    rw [hp', hinv] at hres
    exact absurd hres (by simp)
  · intro g
    exact ⟨(hp g).2.2.1, (hp g).1, (hp g).2.1⟩

/-- The page table of the sample pool `half2` maps page 0 to frame 0 and
nothing else. -/
theorem half2_page_table (p : page_id_t) :
    Sample.half2.page_table_ p = if p = 0 then some 0 else none := by
  by_cases hp : p = 0
  · subst hp
    decide
  · simp [Sample.half2, NewPgImp_eq, AllocateNewFrame, AllocatePage, GetListFront,
      IsFullPage, BufferPoolManagerInstance.new, PageTable.Insert, setPage, List.range_succ, hp]

/-- Witness of C13 on the two-frame pool holding page 0 in frame 0, with frame 1
free. -/
theorem flush_all_pages_witness :
    Sample.half2.page_table_ 0 = some 0 ∧
    Sample.half2.free_list_ = [1] ∧
    (Sample.half2.FlushAllPgsImp.pages_ 0).is_dirty_ = false ∧
    Sample.half2.FlushAllPgsImp.disk_manager_.content 0 =
      (Sample.half2.FlushAllPgsImp.pages_ 0).data_ ∧
    Sample.half2.FlushAllPgsImp.page_table_ = Sample.half2.page_table_ :=
  have h := flush_all_pages Sample.half2
    (fun p f hpf => by
      rw [half2_page_table] at hpf
      by_cases hp : p = 0
      · subst hp
        have hf : f = 0 := by simpa using hpf.symm
        subst hf
        decide
      · simp [hp] at hpf)
    (by decide)
    (by decide)
  ⟨by decide, by decide, (h.1 0 0 (by decide) (by decide)).1,
   (h.1 0 0 (by decide) (by decide)).2, h.2.2.2.1⟩

/-! ## The latch -/

/-- With no call of another thread in between, the schedule is `FlushPgImp`. -/
theorem FlushPgImp_interleaved_nil (s : BufferPoolManagerInstance) (p : page_id_t) :
    FlushPgImp_interleaved s p [] = s.FlushPgImp p := by
  unfold FlushPgImp_interleaved FlushPgImp
  cases s.page_table_.Find p <;> rfl

/-- C14, the code at the failing input: `FlushPgImp` and `FlushAllPgsImp` take no
latch. In the one-frame pool where page 0 is resident, unpinned and dirty with
bytes `[1, 2, 3]`, both serial orders of `FlushPage(0)` and a `NewPage()` of
another thread leave `[1, 2, 3]` stored under id 0; but when the `NewPage()`
(which evicts page 0 and reuses frame 0 for page 1) runs between the flush's
lookup and its write, the flush stores the bytes of page 1 under id 0 and the
bytes `[1, 2, 3]` are lost. -/
theorem flush_without_latch :
    holdsLatch (Op.flushPage 0) = false ∧
    holdsLatch Op.flushAllPages = false ∧
    (run Sample.dirty1 [Op.flushPage 0, Op.newPage]).disk_manager_.content 0 = [1, 2, 3] ∧
    (run Sample.dirty1 [Op.newPage, Op.flushPage 0]).disk_manager_.content 0 = [1, 2, 3] ∧
    ((run Sample.dirty1 [Op.newPage]).pages_ 0).page_id_ = 1 ∧
    (FlushPgImp_interleaved Sample.dirty1 0 [Op.newPage]).1 = true ∧
    (FlushPgImp_interleaved Sample.dirty1 0 [Op.newPage]).2.disk_manager_.content 0 =
      ((run Sample.dirty1 [Op.newPage]).pages_ 0).data_ ∧
    (FlushPgImp_interleaved Sample.dirty1 0 [Op.newPage]).2.disk_manager_.content 0
      ≠ [1, 2, 3] := by
  refine ⟨rfl, rfl, by decide, by decide, by decide, by decide, rfl, by decide⟩

/-- The state after `FlushAllPgsImp` differs from the state before by flushes
only. -/
theorem FlushAllPgsImp_flushedFrom (s : BufferPoolManagerInstance) :
    FlushedFrom s s.FlushAllPgsImp := by
  unfold FlushAllPgsImp
  have key : ∀ (l : List frame_id_t) (t : BufferPoolManagerInstance), FlushedFrom s t →
      FlushedFrom s (l.foldl (fun st i => (st.FlushPgImp (st.pages_ i).page_id_).2) t) := by
    intro l
    induction l with
    | nil => intro t h; exact h
    | cons i l ih =>
      intro t h
      rw [List.foldl_cons]
      exact ih _ (FlushedFrom_flush s t _ h)
  exact key _ s (FlushedFrom_refl s)

/-! ## AllocatePage -/

/-- While the counter does not pass the largest `page_id_t`, the ids of successive
`AllocatePage` calls start at the counter and strictly increase. -/
theorem AllocatePages_sorted (n : Nat) (s : BufferPoolManagerInstance)
    (hlow : (-2147483648 : Int) ≤ s.next_page_id_)
    (hhigh : (s.next_page_id_ : Int) + n ≤ 2147483648) :
    (AllocatePages n s).1.length = n ∧
    (∀ id : Int, id ∈ (AllocatePages n s).1 → (s.next_page_id_ : Int) ≤ id) ∧
    (AllocatePages n s).1.Pairwise (fun a b => a < b) := by
  induction n generalizing s with
  | zero => simp [AllocatePages]
  | succ n ih =>
    rcases Nat.eq_zero_or_pos n with hn | hn
    · subst hn
      refine ⟨by simp [AllocatePages], ?_, by simp [AllocatePages]⟩
      intro id hid
      simp only [AllocatePages, List.mem_cons, List.not_mem_nil, or_false] at hid
      rw [hid]
      exact le_refl _
    · have hc : ∀ c : Int, -2147483648 ≤ c → c + ((n + 1 : Nat) : Int) ≤ 2147483648 →
          (0 : Int) < (n : Int) → c + 1 < 2147483648 ∧ -2147483648 ≤ c + 1 ∧
          c + 1 + (n : Int) ≤ 2147483648 := by
        intro c h1 h2 h3
        push_cast at h2
        omega
      obtain ⟨h1, h2, h3⟩ := hc s.next_page_id_ hlow hhigh (by exact_mod_cast hn)
      have hstep : s.AllocatePage.2.next_page_id_ = s.next_page_id_ + 1 :=
        wrapPageId_of_range _ h2 h1
      obtain ⟨hlen, hge, hsorted⟩ := ih s.AllocatePage.2 (by rw [hstep]; exact h2)
        (by rw [hstep]; exact h3)
      have hlt : ∀ id : Int, id ∈ (AllocatePages n s.AllocatePage.2).1 →
          (s.next_page_id_ : Int) < id := by
        intro id hid
        have := hge id hid
        rw [hstep] at this
        exact Int.lt_of_lt_of_le (Int.lt_succ _) this
      refine ⟨by simp [AllocatePages, hlen], ?_, ?_⟩
      · intro id hid
        simp only [AllocatePages, List.mem_cons] at hid
        rcases hid with hid | hid
        · rw [hid]; exact le_refl _
        · exact le_of_lt (hlt id hid)
      · simp only [AllocatePages, List.pairwise_cons]
        exact ⟨hlt, hsorted⟩

/-- While the counter does not reach the largest `page_id_t`, `n` calls of
`AllocatePage` change the state only by adding `n` to the counter. -/
theorem AllocatePages_state (n : Nat) (s : BufferPoolManagerInstance)
    (hlow : (-2147483648 : Int) ≤ s.next_page_id_)
    (hhigh : (s.next_page_id_ : Int) + n < 2147483648) :
    (AllocatePages n s).2 = { s with next_page_id_ := s.next_page_id_ + (n : Int) } := by
  induction n generalizing s with
  | zero => simp [AllocatePages]
  | succ n ih =>
    have hc : ∀ c : Int, -2147483648 ≤ c → c + ((n + 1 : Nat) : Int) < 2147483648 →
        c + 1 < 2147483648 ∧ -2147483648 ≤ c + 1 ∧ c + 1 + (n : Int) < 2147483648 := by
      intro c h1 h2
      push_cast at h2
      omega
    obtain ⟨h1, h2, h3⟩ := hc s.next_page_id_ hlow hhigh
    have hstep : s.AllocatePage.2.next_page_id_ = s.next_page_id_ + 1 :=
      wrapPageId_of_range _ h2 h1
    have := ih s.AllocatePage.2 (by rw [hstep]; exact h2) (by rw [hstep]; exact h3)
    simp only [AllocatePages]
    rw [this, hstep]
    simp only [AllocatePage]
    congr 1
    push_cast
    ring

/-- Arithmetic of the wrapping counter: a counter within `page_id_t` is its own
wrapped value, `i` wrapped increments after one are `i + 1` wrapped increments,
and fewer than `2^32` increments do not bring the counter back. -/
theorem wrapPageId_add (c : Int) (i : Nat) (h1 : -2147483648 ≤ c) (h2 : c < 2147483648) :
    wrapPageId (c + ((0 : Nat) : Int)) = c ∧
    wrapPageId (wrapPageId (c + 1) + i) = wrapPageId (c + ((i + 1 : Nat) : Int)) ∧
    (i + 1 < 4294967296 → wrapPageId (c + ((i + 1 : Nat) : Int)) ≠ c) := by
  show ((c + ((0 : Nat) : Int) + 2147483648) % 4294967296 - 2147483648 : Int) = c ∧
    ((((c + 1 + 2147483648) % 4294967296 - 2147483648) + (i : Int) + 2147483648)
        % 4294967296 - 2147483648 : Int)
      = (c + ((i + 1 : Nat) : Int) + 2147483648) % 4294967296 - 2147483648 ∧
    (i + 1 < 4294967296 →
      ((c + ((i + 1 : Nat) : Int) + 2147483648) % 4294967296 - 2147483648 : Int) ≠ c)
  push_cast
  omega

/-- Up to `2^32` successive `AllocatePage` calls return the counter's value plus
`0, 1, 2, ...` wrapped into `page_id_t`, and no id twice. -/
theorem AllocatePages_nodup (n : Nat) (s : BufferPoolManagerInstance)
    (hlow : (-2147483648 : Int) ≤ s.next_page_id_)
    (hhigh : (s.next_page_id_ : Int) < 2147483648) (hn : n ≤ 4294967296) :
    (∀ id : Int, id ∈ (AllocatePages n s).1 →
      ∃ i : Nat, i < n ∧ id = wrapPageId (s.next_page_id_ + (i : Int))) ∧
    (AllocatePages n s).1.Nodup := by
  induction n generalizing s with
  | zero => simp [AllocatePages]
  | succ n ih =>
    have hr := wrapPageId_range (s.next_page_id_ + 1)
    obtain ⟨hmem, hnodup⟩ := ih s.AllocatePage.2 hr.1 hr.2 (by omega)
    have hmem2 : ∀ id : Int, id ∈ (AllocatePages n s.AllocatePage.2).1 →
        ∃ i : Nat, i < n ∧ id = wrapPageId (s.next_page_id_ + ((i + 1 : Nat) : Int)) := by
      intro id hid
      obtain ⟨i, hi, e⟩ := hmem id hid
      exact ⟨i, hi, e.trans (wrapPageId_add s.next_page_id_ i hlow hhigh).2.1⟩
    show (∀ id : Int, id ∈ s.next_page_id_ :: (AllocatePages n s.AllocatePage.2).1 →
        ∃ i : Nat, i < n + 1 ∧ id = wrapPageId (s.next_page_id_ + (i : Int))) ∧
      (s.next_page_id_ :: (AllocatePages n s.AllocatePage.2).1).Nodup
    refine ⟨?_, List.nodup_cons.mpr ⟨?_, hnodup⟩⟩
    · intro id hid
      rcases List.mem_cons.mp hid with h | h
      · exact ⟨0, Nat.succ_pos n, h.trans (wrapPageId_add s.next_page_id_ 0 hlow hhigh).1.symm⟩
      · obtain ⟨i, hi, e⟩ := hmem2 id h
        exact ⟨i + 1, Nat.succ_lt_succ hi, e⟩
    · intro h
      obtain ⟨i, hi, e⟩ := hmem2 _ h
      exact (wrapPageId_add s.next_page_id_ i hlow hhigh).2.2 (by omega) e.symm

/-- C15, the claim as stated fails: `page_id_t` is a 32-bit signed integer, so
once the counter stands at `2147483647` (the state `2147483647` calls of
`AllocatePage` after construction) the next two calls return `2147483647` and
then `-2147483648`: the later id is smaller than the earlier one. -/
theorem allocate_page_wraps :
    (AllocatePages 2147483647 (BufferPoolManagerInstance.new 1 DiskManager.empty 2)).2
      = Sample.lastId ∧
    (AllocatePages 2 Sample.lastId).1 = [2147483647, -2147483648] ∧
    ¬ (AllocatePages 2 Sample.lastId).1.Pairwise (fun a b => a < b) := by
  refine ⟨?_, by decide, by decide⟩
  rw [AllocatePages_state 2147483647 _ (by decide) (by decide)]
  rfl

/-- C15, amended: `AllocatePage` is total; it returns the current value of the id
counter and advances the counter by one within `page_id_t`, wrapping from
`2147483647` to `-2147483648`, and touches nothing else. For `n` successive calls
started with the counter at `c`, where `-2^31 <= c` and `c + n <= 2^31` (the
counter does not pass the largest id before the last call), the calls return
`n` ids, each strictly greater than every id returned earlier. For up to `2^32`
successive calls started with the counter at any `page_id_t` value, no id is
returned twice. -/
theorem allocate_page_increasing (s : BufferPoolManagerInstance) :
    s.AllocatePage =
      (s.next_page_id_, { s with next_page_id_ := wrapPageId (s.next_page_id_ + 1) }) ∧
    wrapPageId (2147483647 + 1) = -2147483648 ∧
    (∀ n : Nat, (-2147483648 : Int) ≤ s.next_page_id_ →
      (s.next_page_id_ : Int) + n ≤ 2147483648 →
      (AllocatePages n s).1.length = n ∧
      (AllocatePages n s).1.Pairwise (fun a b => a < b)) ∧
    (∀ n : Nat, (-2147483648 : Int) ≤ s.next_page_id_ →
      (s.next_page_id_ : Int) < 2147483648 → n ≤ 4294967296 →
      (AllocatePages n s).1.Nodup) := by
  refine ⟨rfl, by decide, ?_, ?_⟩
  · intro n hlow hhigh
    obtain ⟨hlen, _, hsorted⟩ := AllocatePages_sorted n s hlow hhigh
    exact ⟨hlen, hsorted⟩
  · intro n hlow hhigh hn
    exact (AllocatePages_nodup n s hlow hhigh hn).2

/-- Witness of the amended C15: three calls on a fresh pool return `0, 1, 2`, in
strictly increasing order; one call with the counter at `2147483647` is within
the bound; and the two calls with the counter at `2147483647`, which return
`2147483647` and `-2147483648`, return no id twice. -/
theorem allocate_page_increasing_witness :
    (AllocatePages 3 (BufferPoolManagerInstance.new 1 DiskManager.empty 2)).1 = [0, 1, 2] ∧
    (AllocatePages 3 (BufferPoolManagerInstance.new 1 DiskManager.empty 2)).1.Pairwise
      (fun a b => a < b) ∧
    (AllocatePages 1 Sample.lastId).1.Pairwise (fun a b => a < b) ∧
    (AllocatePages 2 Sample.lastId).1.Nodup :=
  ⟨by decide,
   ((allocate_page_increasing (BufferPoolManagerInstance.new 1 DiskManager.empty 2)).2.2.1 3
      (by decide) (by decide)).2,
   ((allocate_page_increasing Sample.lastId).2.2.1 1 (by decide) (by decide)).2,
   (allocate_page_increasing Sample.lastId).2.2.2 2 (by decide) (by decide) (by decide)⟩

/-! ## Pin counts and evictability in reachable states -/

/-- The evictability invariant passes to a state in which one frame `f` has
been given a page with a positive pin count and marked non-evictable, the other
frames and flags being as before and every page table entry being an old one or
an entry for `f`. -/
theorem installed_evictability (s t : BufferPoolManagerInstance) (f : frame_id_t) (pg : Page)
    (hs : EvictabilityInvariant s) (hpin : 0 < pg.pin_count_)
    (hpages : ∀ g, t.pages_ g = if g = f then pg else s.pages_ g)
    (hev : ∀ g, t.replacer_.evictable g = if g = f then false else s.replacer_.evictable g)
    (htable : ∀ q g, t.page_table_ q = some g → g = f ∨ s.page_table_ q = some g) :
    EvictabilityInvariant t := by
  obtain ⟨h0, h1, h2⟩ := hs
  refine ⟨?_, ?_, ?_⟩
  · intro g
    rw [hpages]
    split
    · exact le_of_lt hpin
    · exact h0 g
  · intro g hg
    rw [hev] at hg
    by_cases hgf : g = f
    · simp [hgf] at hg
    · simp only [hgf, if_false] at hg
      rw [hpages, if_neg hgf]
      exact h1 g hg
  · intro q g hq hz
    rw [hpages] at hz
    by_cases hgf : g = f
    · rw [if_pos hgf] at hz
      rw [hz] at hpin
      exact absurd hpin (lt_irrefl _)
    · rw [if_neg hgf] at hz
      rw [hev, if_neg hgf]
      rcases htable q g hq with h | h
      · exact absurd h hgf
      · exact h2 q g h hz

/-- `FetchPgImp` keeps the evictability invariant. -/
theorem FetchPgImp_evictability (s : BufferPoolManagerInstance) (p : page_id_t)
    (hs : EvictabilityInvariant s) : EvictabilityInvariant (s.FetchPgImp p).2 := by
  have hins : ∀ (t : PageTable) (f : frame_id_t) (q : page_id_t) (g : frame_id_t),
      t.Insert p f q = some g → g = f ∨ t q = some g := by
    intro t f q g h
    simp only [PageTable.Insert] at h
    split_ifs at h
    · left; simpa using h.symm
    · right; exact h
  cases hq : s.page_table_ p with
  | some f =>
    rw [FetchPgImp_hit s p f hq]
    refine installed_evictability s _ f _ hs ?_ (fun g => rfl)
      (fun g => install_evictable _ f g) (fun q g h => Or.inr h)
    have := hs.1 f
    show 0 < (s.pages_ f).pin_count_ + 1
    omega
  | none =>
    cases hfull : s.IsFullPage with
    | true => simpa [FetchPgImp, PageTable.Find, hq, hfull] using hs
    | false =>
      rcases not_full_cases s hfull with ⟨f, rest, hfl⟩ | ⟨hfl, f, hv⟩
      · rw [FetchPgImp_miss_free s p f rest hq hfl]
        exact installed_evictability s _ f _ hs Int.one_pos (fun g => rfl)
          (fun g => install_evictable _ f g) (fun q g h => hins _ f q g h)
      · rw [FetchPgImp_miss_evict s p f hq hfl hv]
        refine installed_evictability s _ f _ hs Int.one_pos (fun g => rfl)
          (fun g => install_evictable _ f g) ?_
        intro q g h
        rcases hins _ f q g h with h | h
        · exact Or.inl h
        · right
          simp only [PageTable.Remove] at h
          split_ifs at h
          exact h

/-- `NewPgImp` keeps the evictability invariant. -/
theorem NewPgImp_evictability (s : BufferPoolManagerInstance)
    (hs : EvictabilityInvariant s) : EvictabilityInvariant s.NewPgImp.2 := by
  have hins : ∀ (t : PageTable) (f : frame_id_t) (q : page_id_t) (g : frame_id_t),
      t.Insert s.next_page_id_ f q = some g → g = f ∨ t q = some g := by
    intro t f q g h
    simp only [PageTable.Insert] at h
    split_ifs at h
    · left; simpa using h.symm
    · right; exact h
  cases hfull : s.IsFullPage with
  | true => simpa [NewPgImp_eq, hfull] using hs
  | false =>
    rcases not_full_cases s hfull with ⟨f, rest, hfl⟩ | ⟨hfl, f, hv⟩
    · rw [NewPgImp_free s f rest hfl]
      exact installed_evictability s _ f _ hs Int.one_pos (fun g => rfl)
        (fun g => install_evictable _ f g) (fun q g h => hins _ f q g h)
    · rw [NewPgImp_evict s f hfl hv]
      refine installed_evictability s _ f _ hs Int.one_pos (fun g => rfl)
        (fun g => install_evictable _ f g) ?_
      intro q g h
      rcases hins _ f q g h with h | h
      · exact Or.inl h
      · right
        simp only [PageTable.Remove] at h
        split_ifs at h
        exact h

/-- `UnpinPgImp` keeps the evictability invariant. -/
theorem UnpinPgImp_evictability (s : BufferPoolManagerInstance) (p : page_id_t) (d : Bool)
    (hs : EvictabilityInvariant s) : EvictabilityInvariant (s.UnpinPgImp p d).2 := by
  obtain ⟨h0, h1, h2⟩ := hs
  cases hq : s.page_table_ p with
  | none => simpa [UnpinPgImp, PageTable.Find, hq] using ⟨h0, h1, h2⟩
  | some f =>
    by_cases hpin : (s.pages_ f).pin_count_ ≤ 0
    · rw [UnpinPgImp_unpinned s p f d hq hpin]
      refine ⟨?_, ?_, ?_⟩
      · intro g
        by_cases hg : g = f
        · subst hg; simpa using h0 g
        · simpa [hg] using h0 g
      · intro g hg
        by_cases hgf : g = f
        · subst hgf; simpa using h1 g hg
        · simpa [hgf] using h1 g hg
      · intro q g hqg hz
        by_cases hgf : g = f
        · subst hgf
          exact h2 q g hqg (by simpa using hz)
        · exact h2 q g hqg (by simpa [hgf] using hz)
    · have hpos : 0 < (s.pages_ f).pin_count_ := not_le.mp hpin
      rw [UnpinPgImp_pinned s p f d hq hpos]
      by_cases hz : (s.pages_ f).pin_count_ - 1 = 0
      · refine ⟨?_, ?_, ?_⟩
        · intro g
          by_cases hg : g = f
          · subst hg; simp [hz]
          · simpa [hg] using h0 g
        · intro g hg
          by_cases hgf : g = f
          · subst hgf; simpa using hz
          · have : s.replacer_.evictable g = true := by
              simpa [hz, LRUKReplacer.SetEvictable, hgf] using hg
            simpa [hgf] using h1 g this
        · intro q g hqg hzero
          by_cases hgf : g = f
          · subst hgf; simp [hz, LRUKReplacer.SetEvictable]
          · have := h2 q g hqg (by simpa [hgf] using hzero)
            simpa [hz, LRUKReplacer.SetEvictable, hgf] using this
      · refine ⟨?_, ?_, ?_⟩
        · intro g
          by_cases hg : g = f
          · subst hg
            have hh : 0 ≤ (s.pages_ g).pin_count_ - 1 := by omega
            simpa using hh
          · simpa [hg] using h0 g
        · intro g hg
          have hev : s.replacer_.evictable g = true := by simpa [hz] using hg
          by_cases hgf : g = f
          · subst hgf
            have := h1 g hev
            omega
          · simpa [hgf] using h1 g hev
        · intro q g hqg hzero
          by_cases hgf : g = f
          · subst hgf
            exact absurd (by simpa using hzero) hz
          · have := h2 q g hqg (by simpa [hgf] using hzero)
            simpa [hz] using this

/-- Flushes keep the evictability invariant. -/
theorem FlushedFrom_evictability (s t : BufferPoolManagerInstance) (h : FlushedFrom s t)
    (hs : EvictabilityInvariant s) : EvictabilityInvariant t := by
  obtain ⟨e1, _, e3, _, _, hp, _, _⟩ := h
  obtain ⟨h0, h1, h2⟩ := hs
  refine ⟨?_, ?_, ?_⟩
  · intro g
    rw [(hp g).2.2.1]
    exact h0 g
  · intro g hg
    rw [(hp g).2.2.1]
    rw [e3] at hg
    exact h1 g hg
  · intro q g hqg hz
    rw [e1] at hqg
    rw [(hp g).2.2.1] at hz
    rw [e3]
    exact h2 q g hqg hz

/-- `DeletePgImp` keeps the evictability invariant. -/
theorem DeletePgImp_evictability (s : BufferPoolManagerInstance) (p : page_id_t)
    (hs : EvictabilityInvariant s) : EvictabilityInvariant (s.DeletePgImp p).2 := by
  obtain ⟨h0, h1, h2⟩ := hs
  cases hq : s.page_table_ p with
  | none => simpa [DeletePgImp, PageTable.Find, hq] using ⟨h0, h1, h2⟩
  | some f =>
    by_cases hpin : (s.pages_ f).pin_count_ > 0
    · simpa [DeletePgImp, PageTable.Find, hq, hpin] using ⟨h0, h1, h2⟩
    · rw [DeletePgImp_unpinned s p f hq hpin]
      refine ⟨?_, ?_, ?_⟩
      · intro g
        by_cases hg : g = f
        · subst hg; simp [Page.fresh]
        · simpa [hg] using h0 g
      · intro g hg
        by_cases hgf : g = f
        · subst hgf; simp [Page.fresh]
        · have : s.replacer_.evictable g = true := by
            simpa [LRUKReplacer.SetEvictable, LRUKReplacer.Remove, hgf] using hg
          simpa [hgf] using h1 g this
      · intro q g hqg hz
        by_cases hgf : g = f
        · subst hgf; simp [LRUKReplacer.SetEvictable]
        · have hold : s.page_table_ q = some g := by
            simp only [PageTable.Remove] at hqg
            split_ifs at hqg
            exact hqg
          have := h2 q g hold (by simpa [hgf] using hz)
          simpa [LRUKReplacer.SetEvictable, LRUKReplacer.Remove, hgf] using this

/-- Every public call keeps the evictability invariant. -/
theorem step_evictability (s : BufferPoolManagerInstance) (op : Op)
    (hs : EvictabilityInvariant s) : EvictabilityInvariant (step s op) := by
  cases op with
  | newPage => exact NewPgImp_evictability s hs
  | fetchPage q => exact FetchPgImp_evictability s q hs
  | unpinPage q d => exact UnpinPgImp_evictability s q d hs
  | flushPage q =>
    exact FlushedFrom_evictability s _ (FlushedFrom_flush s s q (FlushedFrom_refl s)) hs
  | flushAllPages => exact FlushedFrom_evictability s _ (FlushAllPgsImp_flushedFrom s) hs
  | deletePage q => exact DeletePgImp_evictability s q hs

/-- A freshly constructed pool satisfies the evictability invariant. -/
theorem new_evictability (pool_size replacer_k : Nat) (disk_manager : DiskManager) :
    EvictabilityInvariant (BufferPoolManagerInstance.new pool_size disk_manager replacer_k) := by
  refine ⟨?_, ?_, ?_⟩
  · intro f
    simp [BufferPoolManagerInstance.new, Page.fresh]
  · intro f hf
    simp [BufferPoolManagerInstance.new, LRUKReplacer.new] at hf
  · intro p f hpf
    simp [BufferPoolManagerInstance.new] at hpf

/-- Every state reached from a freshly constructed pool by public calls
satisfies the evictability invariant. -/
theorem run_evictability (s : BufferPoolManagerInstance) (ops : List Op)
    (hs : EvictabilityInvariant s) : EvictabilityInvariant (run s ops) := by
  unfold run
  induction ops generalizing s with
  | nil => exact hs
  | cons op rest ih =>
    rw [List.foldl_cons]
    exact ih _ (step_evictability s op hs)

/-- C16 (pin-count invariant): in every state reached from a freshly constructed
pool by any sequence of `NewPage`, `FetchPage`, `UnpinPage`, `FlushPage`,
`FlushAllPages` and `DeletePage` calls, every frame has `pin_count >= 0`. -/
theorem pin_count_nonneg (pool_size replacer_k : Nat) (disk_manager : DiskManager)
    (ops : List Op) (f : frame_id_t) :
    0 ≤ ((run (BufferPoolManagerInstance.new pool_size disk_manager replacer_k) ops).pages_
      f).pin_count_ :=
  (run_evictability _ ops (new_evictability pool_size replacer_k disk_manager)).1 f

/-- C19: let `p` be resident in frame `f`, with `f` evictable if and only if its
pin count is 0, and that pin count non-negative. Then `FetchPage(p)` followed by
`UnpinPage(p, false)` returns `true` and leaves the state it started from with
one more access recorded for `f` in the replacer: every frame (pin count, dirty
flag, bytes, page id), every evictable flag, the page table, the free list and
the storage collaborator are as before the `FetchPage`. -/
theorem pin_unpin_round_trip (s : BufferPoolManagerInstance) (p : page_id_t) (f : frame_id_t)
    (hres : s.page_table_ p = some f)
    (hiff : s.replacer_.evictable f = true ↔ (s.pages_ f).pin_count_ = 0)
    (hnn : 0 ≤ (s.pages_ f).pin_count_) :
    (s.FetchPgImp p).2.UnpinPgImp p false =
      (true, { s with replacer_ := s.replacer_.RecordAccess f }) ∧
    ((s.FetchPgImp p).2.UnpinPgImp p false).2.pages_ = s.pages_ ∧
    ((s.FetchPgImp p).2.UnpinPgImp p false).2.replacer_.evictable = s.replacer_.evictable ∧
    ((s.FetchPgImp p).2.UnpinPgImp p false).2.page_table_ = s.page_table_ ∧
    ((s.FetchPgImp p).2.UnpinPgImp p false).2.free_list_ = s.free_list_ ∧
    ((s.FetchPgImp p).2.UnpinPgImp p false).2.disk_manager_ = s.disk_manager_ := by
  have key : (s.FetchPgImp p).2.UnpinPgImp p false =
      (true, { s with replacer_ := s.replacer_.RecordAccess f }) := by
    rw [FetchPgImp_hit s p f hres]
    rw [UnpinPgImp_pinned _ p f false ?hres1 ?hpin1]
    case hres1 => exact hres
    case hpin1 =>
      have : 0 < (s.pages_ f).pin_count_ + 1 := by omega
      simpa using this
    have hrepl : (if (s.pages_ f).pin_count_ = 0
          then ((s.replacer_.SetEvictable f false).RecordAccess f).SetEvictable f true
          else (s.replacer_.SetEvictable f false).RecordAccess f) = s.replacer_.RecordAccess f := by
      by_cases hz : (s.pages_ f).pin_count_ = 0
      · have hev := hiff.mpr hz
        rw [if_pos hz]
        simp only [LRUKReplacer.SetEvictable, LRUKReplacer.RecordAccess]
        congr 1
        funext g
        by_cases hg : g = f
        · simp [hg, hev]
        · simp [hg]
      · have hev : s.replacer_.evictable f = false := by
          cases h : s.replacer_.evictable f with
          | false => rfl
          | true => exact absurd (hiff.mp h) hz
        rw [if_neg hz]
        simp only [LRUKReplacer.SetEvictable, LRUKReplacer.RecordAccess]
        congr 1
        funext g
        by_cases hg : g = f
        · simp [hg, hev]
        · simp [hg]
    simp [hrepl]
    funext g
    by_cases hg : g = f
    · subst hg; simp
    · simp [hg]
  rw [key]
  exact ⟨rfl, rfl, rfl, rfl, rfl, rfl⟩

/-- Witness of C19 on the one-frame pool holding page 0 unpinned and evictable. -/
theorem pin_unpin_round_trip_witness :
    Sample.unpinned1.page_table_ 0 = some 0 ∧
    (Sample.unpinned1.replacer_.evictable 0 = true ↔
      (Sample.unpinned1.pages_ 0).pin_count_ = 0) ∧
    ((Sample.unpinned1.FetchPgImp 0).2.UnpinPgImp 0 false).1 = true ∧
    ((Sample.unpinned1.FetchPgImp 0).2.UnpinPgImp 0 false).2.pages_ = Sample.unpinned1.pages_ :=
  have h := pin_unpin_round_trip Sample.unpinned1 0 0 (by decide) (by decide) (by decide)
  ⟨by decide, by decide, congrArg Prod.fst h.1, h.2.1⟩

/-! ## DeletePgImp and storage -/

/-- C20: `DeletePgImp` never writes to storage. For every state and page id `p`,
the bytes the storage collaborator holds under every id are the same after the
call as before, and the only request the call can issue is the deallocation
notice for `p`. In particular, deleting a resident unpinned page whose dirty
flag is set removes it from the page table and zeroes its frame without having
stored the frame's bytes: the unflushed bytes are discarded. -/
theorem delete_never_writes (s : BufferPoolManagerInstance) (p : page_id_t) :
    (∀ q, (s.DeletePgImp p).2.disk_manager_.content q = s.disk_manager_.content q) ∧
    ((s.DeletePgImp p).2.disk_manager_.requests = s.disk_manager_.requests ∨
      (s.DeletePgImp p).2.disk_manager_.requests =
        DiskOp.dealloc p :: s.disk_manager_.requests) ∧
    (∀ f, s.page_table_ p = some f → (s.pages_ f).pin_count_ = 0 →
      (s.pages_ f).is_dirty_ = true →
      (s.DeletePgImp p).1 = true ∧
      (s.DeletePgImp p).2.page_table_ p = none ∧
      ((s.DeletePgImp p).2.pages_ f).data_ = List.replicate BUSTUB_PAGE_SIZE 0 ∧
      (s.DeletePgImp p).2.disk_manager_.content p = s.disk_manager_.content p) := by
  cases hq : s.page_table_ p with
  | none =>
    have : s.DeletePgImp p = (true, s) := by simp [DeletePgImp, PageTable.Find, hq]
    rw [this]
    exact ⟨fun _ => rfl, Or.inl rfl, fun f hf => absurd hf (by simp)⟩
  | some f =>
    by_cases hpin : (s.pages_ f).pin_count_ > 0
    · have : s.DeletePgImp p = (false, s) := by simp [DeletePgImp, PageTable.Find, hq, hpin]
      rw [this]
      refine ⟨fun _ => rfl, Or.inl rfl, ?_⟩
      intro g hg hz _
      have hgf : g = f := (Option.some.inj hg).symm
      rw [hgf] at hz
      omega
    · rw [DeletePgImp_unpinned s p f hq hpin]
      refine ⟨fun _ => rfl, Or.inr rfl, ?_⟩
      intro g hg _ _
      have hgf : g = f := (Option.some.inj hg).symm
      subst hgf
      exact ⟨rfl, by simp [PageTable.Remove], by simp [Page.fresh, zeroData], rfl⟩

/-- C20 on a sample: in the one-frame pool where page 0 is resident, unpinned and
dirty with the unflushed bytes `[1, 2, 3]`, `DeletePage(0)` succeeds, storage
still holds for page 0 what it held before, and the frame no longer holds
`[1, 2, 3]`. -/
theorem delete_never_writes_witness :
    (Sample.dirty1.pages_ 0).is_dirty_ = true ∧
    (Sample.dirty1.pages_ 0).data_ = [1, 2, 3] ∧
    (Sample.dirty1.DeletePgImp 0).1 = true ∧
    (Sample.dirty1.DeletePgImp 0).2.disk_manager_.content 0 =
      Sample.dirty1.disk_manager_.content 0 ∧
    ((Sample.dirty1.DeletePgImp 0).2.pages_ 0).data_ ≠ [1, 2, 3] :=
  ⟨by decide, by decide, by decide, (delete_never_writes Sample.dirty1 0).1 0, by decide⟩

/-! ## The free / resident partition -/

/-- The partition and the match between page table and frames only depend on the
page table, the free list, the pool size and the page ids of the frames; the id
counter may grow. -/
theorem partitioned_congr (s t : BufferPoolManagerInstance)
    (htable : t.page_table_ = s.page_table_) (hfree : t.free_list_ = s.free_list_)
    (hpool : t.pool_size_ = s.pool_size_) (hnext : s.next_page_id_ ≤ t.next_page_id_)
    (hid : ∀ g, (t.pages_ g).page_id_ = (s.pages_ g).page_id_)
    (hs : Partitioned s ∧ TableMatchesFrames s) : Partitioned t ∧ TableMatchesFrames t := by
  obtain ⟨⟨p1, p2, p3, p4, p5⟩, tm⟩ := hs
  refine ⟨⟨?_, ?_, ?_, ?_, ?_⟩, ?_⟩
  · rw [hfree]; exact p1
  · rw [hfree, hpool]; exact p2
  · rw [htable, hfree, hpool]; exact p3
  · rw [htable]; exact p4
  · rw [htable, hfree, hpool]; exact p5
  · intro p f hpf
    rw [htable] at hpf
    rw [hid]
    exact ⟨(tm p f hpf).1, lt_of_lt_of_le (tm p f hpf).2 hnext⟩

/-- Installing page `q`, which was not resident, in the front frame of the free
list keeps the partition. -/
theorem install_free_partitioned (s t : BufferPoolManagerInstance) (f : frame_id_t)
    (rest : List frame_id_t) (q : page_id_t) (pg : Page)
    (hs : Partitioned s ∧ TableMatchesFrames s)
    (hfl : s.free_list_ = f :: rest) (hq : s.page_table_ q = none)
    (hpool : t.pool_size_ = s.pool_size_) (hfree : t.free_list_ = rest)
    (htable : t.page_table_ = s.page_table_.Insert q f)
    (hpages : ∀ g, t.pages_ g = if g = f then pg else s.pages_ g) (hpg : pg.page_id_ = q)
    (hnext : s.next_page_id_ ≤ t.next_page_id_) (hqn : q < t.next_page_id_) :
    Partitioned t ∧ TableMatchesFrames t := by
  obtain ⟨⟨p1, p2, p3, p4, p5⟩, tm⟩ := hs
  rw [hfl] at p1 p2 p3 p5
  have hfrest : f ∉ rest := (List.nodup_cons.mp p1).1
  have hentry : ∀ p g, t.page_table_ p = some g →
      (p = q ∧ g = f) ∨ (p ≠ q ∧ s.page_table_ p = some g) := by
    intro p g h
    rw [htable] at h
    simp only [PageTable.Insert] at h
    split_ifs at h with hpq
    · exact Or.inl ⟨hpq, by simpa using h.symm⟩
    · exact Or.inr ⟨hpq, h⟩
  have hnotf : ∀ p g, s.page_table_ p = some g → g ≠ f := by
    intro p g h hgf
    exact (p3 p g h).2 (by rw [hgf]; exact List.mem_cons_self _ _)
  refine ⟨⟨?_, ?_, ?_, ?_, ?_⟩, ?_⟩
  · rw [hfree]; exact (List.nodup_cons.mp p1).2
  · intro g hg
    rw [hfree] at hg
    rw [hpool]
    exact p2 g (List.mem_cons_of_mem _ hg)
  · intro p g h
    rw [hpool, hfree]
    rcases hentry p g h with ⟨_, hg⟩ | ⟨_, hold⟩
    · rw [hg]
      exact ⟨p2 f (List.mem_cons_self _ _), hfrest⟩
    · exact ⟨(p3 p g hold).1, fun hmem => (p3 p g hold).2 (List.mem_cons_of_mem _ hmem)⟩
  · intro p p' g h h'
    rcases hentry p g h with ⟨hp, hg⟩ | ⟨_, hold⟩
    · rcases hentry p' g h' with ⟨hp', _⟩ | ⟨_, hold'⟩
      · rw [hp, hp']
      · exact absurd hg (hnotf p' g hold')
    · rcases hentry p' g h' with ⟨_, hg'⟩ | ⟨_, hold'⟩
      · exact absurd hg' (hnotf p g hold)
      · exact p4 p p' g hold hold'
  · intro g hg
    rw [hpool] at hg
    rw [hfree, htable]
    rcases p5 g hg with hmem | ⟨p, hp⟩
    · rcases List.mem_cons.mp hmem with hgf | hgr
      · right
        exact ⟨q, by simp [PageTable.Insert, hgf]⟩
      · exact Or.inl hgr
    · right
      refine ⟨p, ?_⟩
      have hpq : p ≠ q := by
        intro hpq
        rw [hpq, hq] at hp
        exact absurd hp (by simp)
      simp [PageTable.Insert, hpq, hp]
  · intro p g h
    rcases hentry p g h with ⟨hp, hg⟩ | ⟨_, hold⟩
    · rw [hg, hpages, if_pos rfl, hp]
      exact ⟨hpg, hqn⟩
    · rw [hpages, if_neg (hnotf p g hold)]
      exact ⟨(tm p g hold).1, lt_of_lt_of_le (tm p g hold).2 hnext⟩

/-- Installing page `q`, which was not resident, in a frame of the pool reclaimed
by eviction (the free list being empty, and the frame's old page table entry
removed) keeps the partition. -/
theorem install_evict_partitioned (s t : BufferPoolManagerInstance) (f : frame_id_t)
    (q : page_id_t) (pg : Page) (hs : Partitioned s ∧ TableMatchesFrames s)
    (hfl : s.free_list_ = []) (hf : f < s.pool_size_) (hq : s.page_table_ q = none)
    (hpool : t.pool_size_ = s.pool_size_) (hfree : t.free_list_ = [])
    (htable : t.page_table_ = (s.page_table_.Remove (s.pages_ f).page_id_).Insert q f)
    (hpages : ∀ g, t.pages_ g = if g = f then pg else s.pages_ g) (hpg : pg.page_id_ = q)
    (hnext : s.next_page_id_ ≤ t.next_page_id_) (hqn : q < t.next_page_id_) :
    Partitioned t ∧ TableMatchesFrames t := by
  obtain ⟨⟨_, _, p3, p4, p5⟩, tm⟩ := hs
  rw [hfl] at p5
  have hold0 : s.page_table_ (s.pages_ f).page_id_ = some f := by
    rcases p5 f hf with hmem | ⟨p, hp⟩
    · exact absurd hmem (List.not_mem_nil _)
    · rw [(tm p f hp).1]; exact hp
  have hentry : ∀ p g, t.page_table_ p = some g →
      (p = q ∧ g = f) ∨ (p ≠ q ∧ g ≠ f ∧ s.page_table_ p = some g) := by
    intro p g h
    rw [htable] at h
    simp only [PageTable.Insert, PageTable.Remove] at h
    split_ifs at h with hpq hp0
    · exact Or.inl ⟨hpq, by simpa using h.symm⟩
    · refine Or.inr ⟨hpq, ?_, h⟩
      intro hgf
      rw [hgf] at h
      exact hp0 (p4 _ _ f h hold0)
  refine ⟨⟨?_, ?_, ?_, ?_, ?_⟩, ?_⟩
  · rw [hfree]; exact List.nodup_nil
  · intro g hg
    rw [hfree] at hg
    exact absurd hg (List.not_mem_nil _)
  · intro p g h
    rw [hpool, hfree]
    rcases hentry p g h with ⟨_, hg⟩ | ⟨_, _, hold⟩
    · rw [hg]
      exact ⟨hf, List.not_mem_nil _⟩
    · exact ⟨(p3 p g hold).1, List.not_mem_nil _⟩
  · intro p p' g h h'
    rcases hentry p g h with ⟨hp, hg⟩ | ⟨_, hgf, hold⟩
    · rcases hentry p' g h' with ⟨hp', _⟩ | ⟨_, hgf', _⟩
      · rw [hp, hp']
      · exact absurd hg hgf'
    · rcases hentry p' g h' with ⟨_, hg'⟩ | ⟨_, _, hold'⟩
      · exact absurd hg' hgf
      · exact p4 p p' g hold hold'
  · intro g hg
    rw [hpool] at hg
    rw [hfree, htable]
    right
    by_cases hgf : g = f
    · exact ⟨q, by simp [PageTable.Insert, hgf]⟩
    · rcases p5 g hg with hmem | ⟨p, hp⟩
      · exact absurd hmem (List.not_mem_nil _)
      · refine ⟨p, ?_⟩
        have hpq : p ≠ q := by
          intro hpq
          rw [hpq, hq] at hp
          exact absurd hp (by simp)
        have hp0 : p ≠ (s.pages_ f).page_id_ := by
          intro hp0
          rw [hp0, hold0] at hp
          exact hgf (Option.some.inj hp).symm
        simp [PageTable.Insert, PageTable.Remove, hpq, hp0, hp]
  · intro p g h
    rcases hentry p g h with ⟨hp, hg⟩ | ⟨_, hgf, hold⟩
    · rw [hg, hpages, if_pos rfl, hp]
      exact ⟨hpg, hqn⟩
    · rw [hpages, if_neg hgf]
      exact ⟨(tm p g hold).1, lt_of_lt_of_le (tm p g hold).2 hnext⟩

/-- Every page table entry is for an id below the id counter, so the id at the
counter is not resident. -/
theorem next_page_id_not_resident (s : BufferPoolManagerInstance) (hs : TableMatchesFrames s) :
    s.page_table_ s.next_page_id_ = none := by
  cases h : s.page_table_ s.next_page_id_ with
  | none => rfl
  | some f => exact absurd (hs _ f h).2 (lt_irrefl _)

/-- `FetchPgImp` of an id below the id counter keeps the partition. -/
theorem FetchPgImp_partitioned (s : BufferPoolManagerInstance) (q : page_id_t)
    (hs : Partitioned s ∧ TableMatchesFrames s) (hE : EvictableOnlyUnpinned s)
    (hq : q < s.next_page_id_) :
    Partitioned (s.FetchPgImp q).2 ∧ TableMatchesFrames (s.FetchPgImp q).2 := by
  cases hres : s.page_table_ q with
  | some f =>
    rw [FetchPgImp_hit s q f hres]
    refine partitioned_congr s _ rfl rfl rfl (le_refl _) ?_ hs
    intro g
    by_cases hg : g = f
    · subst hg; simp
    · simp [hg]
  | none =>
    cases hfull : s.IsFullPage with
    | true => simpa [FetchPgImp, PageTable.Find, hres, hfull] using hs
    | false =>
      rcases not_full_cases s hfull with ⟨f, rest, hfl⟩ | ⟨hfl, f, hv⟩
      · rw [FetchPgImp_miss_free s q f rest hres hfl]
        exact install_free_partitioned s _ f rest q _ hs hfl hres rfl rfl rfl
          (fun g => rfl) rfl (le_refl _) hq
      · rw [FetchPgImp_miss_evict s q f hres hfl hv]
        exact install_evict_partitioned s _ f q _ hs hfl
          (hE f (victim_evictable _ f hv)).1 hres rfl hfl rfl (fun g => rfl) rfl (le_refl _) hq

/-- `NewPgImp` keeps the partition. -/
theorem NewPgImp_partitioned (s : BufferPoolManagerInstance)
    (hs : Partitioned s ∧ TableMatchesFrames s) (hE : EvictableOnlyUnpinned s)
    (hlow : (-2147483648 : Int) ≤ s.next_page_id_)
    (hhigh : (s.next_page_id_ : Int) + 1 < 2147483648) :
    Partitioned s.NewPgImp.2 ∧ TableMatchesFrames s.NewPgImp.2 := by
  have hres := next_page_id_not_resident s hs.2
  have hw : wrapPageId (s.next_page_id_ + 1) = s.next_page_id_ + 1 :=
    wrapPageId_of_range _ (le_trans hlow (Int.le_add_one (le_refl _))) hhigh
  cases hfull : s.IsFullPage with
  | true => simpa [NewPgImp_eq, hfull] using hs
  | false =>
    rcases not_full_cases s hfull with ⟨f, rest, hfl⟩ | ⟨hfl, f, hv⟩
    · rw [NewPgImp_free s f rest hfl, hw]
      exact install_free_partitioned s _ f rest s.next_page_id_ _ hs hfl hres rfl rfl rfl
        (fun g => rfl) rfl (Int.le_add_one (le_refl _)) (Int.lt_succ _)
    · rw [NewPgImp_evict s f hfl hv, hw]
      exact install_evict_partitioned s _ f s.next_page_id_ _ hs hfl
        (hE f (victim_evictable _ f hv)).1 hres rfl hfl rfl (fun g => rfl) rfl
        (Int.le_add_one (le_refl _)) (Int.lt_succ _)

/-- `UnpinPgImp` leaves the pool size. -/
theorem UnpinPgImp_pool_size (s : BufferPoolManagerInstance) (q : page_id_t) (d : Bool) :
    (s.UnpinPgImp q d).2.pool_size_ = s.pool_size_ := by
  cases hq : s.page_table_ q with
  | none => simp [UnpinPgImp, PageTable.Find, hq]
  | some f =>
    by_cases hpin : (s.pages_ f).pin_count_ ≤ 0
    · rw [UnpinPgImp_unpinned s q f d hq hpin]
    · rw [UnpinPgImp_pinned s q f d hq (not_le.mp hpin)]

/-- Flushes keep the partition. -/
theorem FlushedFrom_partitioned (s t : BufferPoolManagerInstance) (h : FlushedFrom s t)
    (hs : Partitioned s ∧ TableMatchesFrames s) : Partitioned t ∧ TableMatchesFrames t :=
  partitioned_congr s t h.1 h.2.1 h.2.2.2.1 (le_of_eq h.2.2.2.2.1.symm)
    (fun g => (h.2.2.2.2.2.1 g).2.1) hs

/-- `DeletePgImp` keeps the partition. -/
theorem DeletePgImp_partitioned (s : BufferPoolManagerInstance) (q : page_id_t)
    (hs : Partitioned s ∧ TableMatchesFrames s) :
    Partitioned (s.DeletePgImp q).2 ∧ TableMatchesFrames (s.DeletePgImp q).2 := by
  cases hq : s.page_table_ q with
  | none => simpa [DeletePgImp, PageTable.Find, hq] using hs
  | some f =>
    by_cases hpin : (s.pages_ f).pin_count_ > 0
    · simpa [DeletePgImp, PageTable.Find, hq, hpin] using hs
    · rw [DeletePgImp_unpinned s q f hq hpin]
      obtain ⟨⟨p1, p2, p3, p4, p5⟩, tm⟩ := hs
      have hentry : ∀ p g, s.page_table_.Remove q p = some g →
          p ≠ q ∧ g ≠ f ∧ s.page_table_ p = some g := by
        intro p g h
        simp only [PageTable.Remove] at h
        split_ifs at h with hpq
        refine ⟨hpq, ?_, h⟩
        intro hgf
        rw [hgf] at h
        exact hpq (p4 p q f h hq)
      refine ⟨⟨?_, ?_, ?_, ?_, ?_⟩, ?_⟩
      · exact List.nodup_cons.mpr ⟨(p3 q f hq).2, p1⟩
      · intro g hg
        rcases List.mem_cons.mp hg with hgf | hgr
        · rw [hgf]; exact (p3 q f hq).1
        · exact p2 g hgr
      · intro p g h
        obtain ⟨_, hgf, hold⟩ := hentry p g h
        refine ⟨(p3 p g hold).1, ?_⟩
        intro hmem
        rcases List.mem_cons.mp hmem with h1 | h1
        · exact hgf h1
        · exact (p3 p g hold).2 h1
      · intro p p' g h h'
        exact p4 p p' g (hentry p g h).2.2 (hentry p' g h').2.2
      · intro g hg
        by_cases hgf : g = f
        · left; rw [hgf]; exact List.mem_cons_self _ _
        · rcases p5 g hg with hmem | ⟨p, hp⟩
          · exact Or.inl (List.mem_cons_of_mem _ hmem)
          · right
            refine ⟨p, ?_⟩
            have hpq : p ≠ q := by
              intro hpq
              rw [hpq, hq] at hp
              exact hgf (Option.some.inj hp).symm
            simp [PageTable.Remove, hpq, hp]
      · intro p g h
        obtain ⟨_, hgf, hold⟩ := hentry p g h
        simpa [hgf] using tm p g hold

/-- A public call keeps the partition, when a `FetchPage` asks for an id below
the id counter and the counter is not at the largest `page_id_t`. -/
theorem step_partitioned (s : BufferPoolManagerInstance) (op : Op)
    (hs : Partitioned s ∧ TableMatchesFrames s) (hE : EvictableOnlyUnpinned s)
    (hop : fetchesKnown s op = true)
    (hlow : (-2147483648 : Int) ≤ s.next_page_id_)
    (hhigh : (s.next_page_id_ : Int) + 1 < 2147483648) :
    Partitioned (step s op) ∧ TableMatchesFrames (step s op) := by
  cases op with
  | newPage => exact NewPgImp_partitioned s hs hE hlow hhigh
  | fetchPage q => exact FetchPgImp_partitioned s q hs hE (by simpa [fetchesKnown] using hop)
  | unpinPage q d =>
    exact partitioned_congr s _ (UnpinPgImp_frame s q d).1 (UnpinPgImp_frame s q d).2.1
      (UnpinPgImp_pool_size s q d) (le_of_eq (UnpinPgImp_frame s q d).2.2.2.symm)
      (fun g => UnpinPgImp_page_id s q d g) hs
  | flushPage q =>
    exact FlushedFrom_partitioned s _ (FlushedFrom_flush s s q (FlushedFrom_refl s)) hs
  | flushAllPages => exact FlushedFrom_partitioned s _ (FlushAllPgsImp_flushedFrom s) hs
  | deletePage q => exact DeletePgImp_partitioned s q hs

/-- While the counter is not at the largest `page_id_t`, a public call leaves the
id counter or adds one to it. -/
theorem step_next_page_id (s : BufferPoolManagerInstance) (op : Op)
    (hlow : (-2147483648 : Int) ≤ s.next_page_id_)
    (hhigh : (s.next_page_id_ : Int) + 1 < 2147483648) :
    (step s op).next_page_id_ = s.next_page_id_ ∨
    (step s op).next_page_id_ = s.next_page_id_ + 1 := by
  have hw : wrapPageId (s.next_page_id_ + 1) = s.next_page_id_ + 1 :=
    wrapPageId_of_range _ (le_trans hlow (Int.le_add_one (le_refl _))) hhigh
  cases op with
  | newPage =>
    show s.NewPgImp.2.next_page_id_ = _ ∨ s.NewPgImp.2.next_page_id_ = _
    cases hfull : s.IsFullPage with
    | true => left; simp [NewPgImp_eq, hfull]
    | false =>
      right
      rcases not_full_cases s hfull with ⟨f, rest, hfl⟩ | ⟨hfl, f, hv⟩
      · rw [NewPgImp_free s f rest hfl]; exact hw
      · rw [NewPgImp_evict s f hfl hv]; exact hw
  | fetchPage q =>
    left
    show (s.FetchPgImp q).2.next_page_id_ = s.next_page_id_
    cases hq : s.page_table_ q with
    | some f => rw [FetchPgImp_hit s q f hq]
    | none =>
      cases hfull : s.IsFullPage with
      | true => simp [FetchPgImp, PageTable.Find, hq, hfull]
      | false =>
        rcases not_full_cases s hfull with ⟨f, rest, hfl⟩ | ⟨hfl, f, hv⟩
        · rw [FetchPgImp_miss_free s q f rest hq hfl]
        · rw [FetchPgImp_miss_evict s q f hq hfl hv]
  | unpinPage q d => exact Or.inl (UnpinPgImp_frame s q d).2.2.2
  | flushPage q => exact Or.inl (FlushedFrom_flush s s q (FlushedFrom_refl s)).2.2.2.2.1
  | flushAllPages => exact Or.inl (FlushAllPgsImp_flushedFrom s).2.2.2.2.1
  | deletePage q =>
    left
    show (s.DeletePgImp q).2.next_page_id_ = s.next_page_id_
    cases hq : s.page_table_ q with
    | none => simp [DeletePgImp, PageTable.Find, hq]
    | some f =>
      by_cases hpin : (s.pages_ f).pin_count_ > 0
      · simp [DeletePgImp, PageTable.Find, hq, hpin]
      · rw [DeletePgImp_unpinned s q f hq hpin]

/-- The partition gives the frames-in-pool condition. -/
theorem partitioned_framesInPool (s : BufferPoolManagerInstance) (h : Partitioned s) :
    FramesInPool s :=
  ⟨fun p f hpf => (h.2.2.1 p f hpf).1, h.2.1⟩

/-- No public call changes the pool size. -/
theorem step_pool_size (s : BufferPoolManagerInstance) (op : Op) :
    (step s op).pool_size_ = s.pool_size_ := by
  cases op with
  | newPage =>
    show s.NewPgImp.2.pool_size_ = s.pool_size_
    cases hfull : s.IsFullPage with
    | true => simp [NewPgImp_eq, hfull]
    | false =>
      rcases not_full_cases s hfull with ⟨f, rest, hfl⟩ | ⟨hfl, f, hv⟩
      · rw [NewPgImp_free s f rest hfl]
      · rw [NewPgImp_evict s f hfl hv]
  | fetchPage q =>
    show (s.FetchPgImp q).2.pool_size_ = s.pool_size_
    cases hq : s.page_table_ q with
    | some f => rw [FetchPgImp_hit s q f hq]
    | none =>
      cases hfull : s.IsFullPage with
      | true => simp [FetchPgImp, PageTable.Find, hq, hfull]
      | false =>
        rcases not_full_cases s hfull with ⟨f, rest, hfl⟩ | ⟨hfl, f, hv⟩
        · rw [FetchPgImp_miss_free s q f rest hq hfl]
        · rw [FetchPgImp_miss_evict s q f hq hfl hv]
  | unpinPage q d => exact UnpinPgImp_pool_size s q d
  | flushPage q => exact (FlushedFrom_flush s s q (FlushedFrom_refl s)).2.2.2.1
  | flushAllPages => exact (FlushAllPgsImp_flushedFrom s).2.2.2.1
  | deletePage q =>
    show (s.DeletePgImp q).2.pool_size_ = s.pool_size_
    cases hq : s.page_table_ q with
    | none => simp [DeletePgImp, PageTable.Find, hq]
    | some f =>
      by_cases hpin : (s.pages_ f).pin_count_ > 0
      · simp [DeletePgImp, PageTable.Find, hq, hpin]
      · rw [DeletePgImp_unpinned s q f hq hpin]

/-- A sequence of public calls in which every `FetchPage` asks for an id below
the id counter, short enough for the counter not to reach the largest
`page_id_t`, keeps the partition and the pool size. -/
theorem run_partitioned (s : BufferPoolManagerInstance) (ops : List Op)
    (hs : Partitioned s ∧ TableMatchesFrames s) (hE : EvictableOnlyUnpinned s)
    (hops : fetchesKnownAll s ops = true)
    (hlow : (-2147483648 : Int) ≤ s.next_page_id_)
    (hhigh : (s.next_page_id_ : Int) + ops.length < 2147483648) :
    Partitioned (run s ops) ∧ (run s ops).pool_size_ = s.pool_size_ := by
  induction ops generalizing s with
  | nil => exact ⟨hs.1, rfl⟩
  | cons op rest ih =>
    simp only [fetchesKnownAll, Bool.and_eq_true] at hops
    have hc : ∀ c : Int, -2147483648 ≤ c → c + ((rest.length + 1 : Nat) : Int) < 2147483648 →
        c + 1 < 2147483648 ∧ c + (rest.length : Int) < 2147483648 ∧
        c + 1 + (rest.length : Int) < 2147483648 ∧ -2147483648 ≤ c + 1 := by
      intro c h1 h2
      push_cast at h2
      omega
    obtain ⟨h1, h2, h3, h4⟩ := hc s.next_page_id_ hlow (by simpa using hhigh)
    have hstep := step_partitioned s op hs hE hops.1 hlow h1
    have hE1 := (step_consistent s op ⟨hE, partitioned_framesInPool s hs.1⟩).1
    have hnext : (-2147483648 : Int) ≤ (step s op).next_page_id_ ∧
        ((step s op).next_page_id_ : Int) + rest.length < 2147483648 := by
      rcases step_next_page_id s op hlow h1 with h | h
      · rw [h]; exact ⟨hlow, h2⟩
      · rw [h]; exact ⟨h4, h3⟩
    have := ih (step s op) hstep hE1 hops.2 hnext.1 hnext.2
    exact ⟨this.1, this.2.trans (step_pool_size s op)⟩

/-- A freshly constructed pool is partitioned: the free list is `0 .. N-1` and
the page table is empty. -/
theorem new_partitioned (pool_size replacer_k : Nat) (disk_manager : DiskManager) :
    Partitioned (BufferPoolManagerInstance.new pool_size disk_manager replacer_k) ∧
    TableMatchesFrames (BufferPoolManagerInstance.new pool_size disk_manager replacer_k) := by
  refine ⟨⟨?_, ?_, ?_, ?_, ?_⟩, ?_⟩
  · exact List.nodup_range pool_size
  · intro f hf
    exact List.mem_range.mp hf
  · intro p f hpf
    simp [BufferPoolManagerInstance.new] at hpf
  · intro p q f hpf
    simp [BufferPoolManagerInstance.new] at hpf
  · intro f hf
    exact Or.inl (List.mem_range.mpr hf)
  · intro p f hpf
    simp [BufferPoolManagerInstance.new] at hpf

/-- When no frame is counted twice, distinct resident page ids are at most as
many as the frames of the pool. -/
theorem resident_count_le (s : BufferPoolManagerInstance) (h : FramesAtMostOnce s)
    (l : List page_id_t) (hl : l.Nodup) (hres : ∀ p, p ∈ l → ∃ f, s.page_table_ p = some f) :
    l.length ≤ s.pool_size_ := by
  obtain ⟨_, _, p3, p4⟩ := h
  have hmap : (l.map (fun p => (s.page_table_ p).getD 0)).Nodup := by
    apply List.Nodup.map_on _ hl
    intro p hp p' hp' heq
    obtain ⟨f, hf⟩ := hres p hp
    obtain ⟨f', hf'⟩ := hres p' hp'
    simp only [hf, hf', Option.getD_some] at heq
    rw [← heq] at hf'
    exact p4 p p' f hf hf'
  have hsub : (l.map (fun p => (s.page_table_ p).getD 0)).toFinset ⊆ Finset.range s.pool_size_ := by
    intro g hg
    rw [List.mem_toFinset, List.mem_map] at hg
    obtain ⟨p, hp, hpg⟩ := hg
    obtain ⟨f, hf⟩ := hres p hp
    simp only [hf, Option.getD_some] at hpg
    rw [← hpg]
    exact Finset.mem_range.mpr (p3 p f hf).1
  have hcard := Finset.card_le_card hsub
  rw [List.toFinset_card_of_nodup hmap, List.length_map, Finset.card_range] at hcard
  exact hcard

/-- Whatever the page table held for `q`, installing page `q` in the front frame
of the free list counts no frame twice. -/
theorem install_free_atMostOnce (s t : BufferPoolManagerInstance) (f : frame_id_t)
    (rest : List frame_id_t) (q : page_id_t) (pg : Page)
    (hs : FramesAtMostOnce s ∧ TableCarriesIds s)
    (hfl : s.free_list_ = f :: rest)
    (hpool : t.pool_size_ = s.pool_size_) (hfree : t.free_list_ = rest)
    (htable : t.page_table_ = s.page_table_.Insert q f)
    (hpages : ∀ g, t.pages_ g = if g = f then pg else s.pages_ g) (hpg : pg.page_id_ = q) :
    FramesAtMostOnce t ∧ TableCarriesIds t := by
  obtain ⟨⟨p1, p2, p3, p4⟩, tm⟩ := hs
  rw [hfl] at p1 p2 p3
  have hfrest : f ∉ rest := (List.nodup_cons.mp p1).1
  have hentry : ∀ p g, t.page_table_ p = some g →
      (p = q ∧ g = f) ∨ (p ≠ q ∧ s.page_table_ p = some g) := by
    intro p g h
    rw [htable] at h
    simp only [PageTable.Insert] at h
    split_ifs at h with hpq
    · exact Or.inl ⟨hpq, by simpa using h.symm⟩
    · exact Or.inr ⟨hpq, h⟩
  have hnotf : ∀ p g, s.page_table_ p = some g → g ≠ f := by
    intro p g h hgf
    exact (p3 p g h).2 (by rw [hgf]; exact List.mem_cons_self _ _)
  refine ⟨⟨?_, ?_, ?_, ?_⟩, ?_⟩
  · rw [hfree]; exact (List.nodup_cons.mp p1).2
  · intro g hg
    rw [hfree] at hg
    rw [hpool]
    exact p2 g (List.mem_cons_of_mem _ hg)
  · intro p g h
    rw [hpool, hfree]
    rcases hentry p g h with ⟨_, hg⟩ | ⟨_, hold⟩
    · rw [hg]
      exact ⟨p2 f (List.mem_cons_self _ _), hfrest⟩
    · exact ⟨(p3 p g hold).1, fun hmem => (p3 p g hold).2 (List.mem_cons_of_mem _ hmem)⟩
  · intro p p' g h h'
    rcases hentry p g h with ⟨hp, hg⟩ | ⟨_, hold⟩
    · rcases hentry p' g h' with ⟨hp', _⟩ | ⟨_, hold'⟩
      · rw [hp, hp']
      · exact absurd hg (hnotf p' g hold')
    · rcases hentry p' g h' with ⟨_, hg'⟩ | ⟨_, hold'⟩
      · exact absurd hg' (hnotf p g hold)
      · exact p4 p p' g hold hold'
  · intro p g h
    rcases hentry p g h with ⟨hp, hg⟩ | ⟨_, hold⟩
    · rw [hg, hpages, if_pos rfl, hp]
      exact hpg
    · rw [hpages, if_neg (hnotf p g hold)]
      exact tm p g hold

/-- Whatever the page table held for `q`, installing page `q` in a frame of the
pool reclaimed by eviction counts no frame twice. -/
theorem install_evict_atMostOnce (s t : BufferPoolManagerInstance) (f : frame_id_t)
    (q : page_id_t) (pg : Page) (hs : FramesAtMostOnce s ∧ TableCarriesIds s)
    (hf : f < s.pool_size_)
    (hpool : t.pool_size_ = s.pool_size_) (hfree : t.free_list_ = [])
    (htable : t.page_table_ = (s.page_table_.Remove (s.pages_ f).page_id_).Insert q f)
    (hpages : ∀ g, t.pages_ g = if g = f then pg else s.pages_ g) (hpg : pg.page_id_ = q) :
    FramesAtMostOnce t ∧ TableCarriesIds t := by
  obtain ⟨⟨_, _, p3, p4⟩, tm⟩ := hs
  have hentry : ∀ p g, t.page_table_ p = some g →
      (p = q ∧ g = f) ∨ (p ≠ q ∧ g ≠ f ∧ s.page_table_ p = some g) := by
    intro p g h
    rw [htable] at h
    simp only [PageTable.Insert, PageTable.Remove] at h
    split_ifs at h with hpq hp0
    · exact Or.inl ⟨hpq, by simpa using h.symm⟩
    · refine Or.inr ⟨hpq, ?_, h⟩
      intro hgf
      rw [hgf] at h
      exact hp0 (tm p f h).symm
  refine ⟨⟨?_, ?_, ?_, ?_⟩, ?_⟩
  · rw [hfree]; exact List.nodup_nil
  · intro g hg
    rw [hfree] at hg
    exact absurd hg (List.not_mem_nil _)
  · intro p g h
    rw [hpool, hfree]
    rcases hentry p g h with ⟨_, hg⟩ | ⟨_, _, hold⟩
    · rw [hg]
      exact ⟨hf, List.not_mem_nil _⟩
    · exact ⟨(p3 p g hold).1, List.not_mem_nil _⟩
  · intro p p' g h h'
    rcases hentry p g h with ⟨hp, hg⟩ | ⟨_, hgf, hold⟩
    · rcases hentry p' g h' with ⟨hp', _⟩ | ⟨_, hgf', _⟩
      · rw [hp, hp']
      · exact absurd hg hgf'
    · rcases hentry p' g h' with ⟨_, hg'⟩ | ⟨_, _, hold'⟩
      · exact absurd hg' hgf
      · exact p4 p p' g hold hold'
  · intro p g h
    rcases hentry p g h with ⟨hp, hg⟩ | ⟨_, hgf, hold⟩
    · rw [hg, hpages, if_pos rfl, hp]
      exact hpg
    · rw [hpages, if_neg hgf]
      exact tm p g hold

/-- Counting no frame twice only depends on the page table, the free list, the
pool size and the page ids of the frames. -/
theorem atMostOnce_congr (s t : BufferPoolManagerInstance)
    (htable : t.page_table_ = s.page_table_) (hfree : t.free_list_ = s.free_list_)
    (hpool : t.pool_size_ = s.pool_size_)
    (hid : ∀ g, (t.pages_ g).page_id_ = (s.pages_ g).page_id_)
    (hs : FramesAtMostOnce s ∧ TableCarriesIds s) : FramesAtMostOnce t ∧ TableCarriesIds t := by
  obtain ⟨⟨p1, p2, p3, p4⟩, tm⟩ := hs
  refine ⟨⟨?_, ?_, ?_, ?_⟩, ?_⟩
  · rw [hfree]; exact p1
  · rw [hfree, hpool]; exact p2
  · rw [htable, hfree, hpool]; exact p3
  · rw [htable]; exact p4
  · intro p f hpf
    rw [htable] at hpf
    rw [hid]
    exact tm p f hpf

/-- `FetchPgImp` counts no frame twice. -/
theorem FetchPgImp_atMostOnce (s : BufferPoolManagerInstance) (q : page_id_t)
    (hs : FramesAtMostOnce s ∧ TableCarriesIds s) (hE : EvictableOnlyUnpinned s) :
    FramesAtMostOnce (s.FetchPgImp q).2 ∧ TableCarriesIds (s.FetchPgImp q).2 := by
  cases hres : s.page_table_ q with
  | some f =>
    rw [FetchPgImp_hit s q f hres]
    refine atMostOnce_congr s _ rfl rfl rfl ?_ hs
    intro g
    by_cases hg : g = f
    · subst hg; simp
    · simp [hg]
  | none =>
    cases hfull : s.IsFullPage with
    | true => simpa [FetchPgImp, PageTable.Find, hres, hfull] using hs
    | false =>
      rcases not_full_cases s hfull with ⟨f, rest, hfl⟩ | ⟨hfl, f, hv⟩
      · rw [FetchPgImp_miss_free s q f rest hres hfl]
        exact install_free_atMostOnce s _ f rest q _ hs hfl rfl rfl rfl (fun g => rfl) rfl
      · rw [FetchPgImp_miss_evict s q f hres hfl hv]
        exact install_evict_atMostOnce s _ f q _ hs (hE f (victim_evictable _ f hv)).1
          rfl hfl rfl (fun g => rfl) rfl

/-- `NewPgImp` counts no frame twice. -/
theorem NewPgImp_atMostOnce (s : BufferPoolManagerInstance)
    (hs : FramesAtMostOnce s ∧ TableCarriesIds s) (hE : EvictableOnlyUnpinned s) :
    FramesAtMostOnce s.NewPgImp.2 ∧ TableCarriesIds s.NewPgImp.2 := by
  cases hfull : s.IsFullPage with
  | true => simpa [NewPgImp_eq, hfull] using hs
  | false =>
    rcases not_full_cases s hfull with ⟨f, rest, hfl⟩ | ⟨hfl, f, hv⟩
    · rw [NewPgImp_free s f rest hfl]
      exact install_free_atMostOnce s _ f rest s.next_page_id_ _ hs hfl rfl rfl rfl
        (fun g => rfl) rfl
    · rw [NewPgImp_evict s f hfl hv]
      exact install_evict_atMostOnce s _ f s.next_page_id_ _ hs
        (hE f (victim_evictable _ f hv)).1 rfl hfl rfl (fun g => rfl) rfl

/-- `DeletePgImp` counts no frame twice. -/
theorem DeletePgImp_atMostOnce (s : BufferPoolManagerInstance) (q : page_id_t)
    (hs : FramesAtMostOnce s ∧ TableCarriesIds s) :
    FramesAtMostOnce (s.DeletePgImp q).2 ∧ TableCarriesIds (s.DeletePgImp q).2 := by
  cases hq : s.page_table_ q with
  | none => simpa [DeletePgImp, PageTable.Find, hq] using hs
  | some f =>
    by_cases hpin : (s.pages_ f).pin_count_ > 0
    · simpa [DeletePgImp, PageTable.Find, hq, hpin] using hs
    · rw [DeletePgImp_unpinned s q f hq hpin]
      obtain ⟨⟨p1, p2, p3, p4⟩, tm⟩ := hs
      have hentry : ∀ p g, s.page_table_.Remove q p = some g →
          p ≠ q ∧ g ≠ f ∧ s.page_table_ p = some g := by
        intro p g h
        simp only [PageTable.Remove] at h
        split_ifs at h with hpq
        refine ⟨hpq, ?_, h⟩
        intro hgf
        rw [hgf] at h
        exact hpq (p4 p q f h hq)
      refine ⟨⟨?_, ?_, ?_, ?_⟩, ?_⟩
      · exact List.nodup_cons.mpr ⟨(p3 q f hq).2, p1⟩
      · intro g hg
        rcases List.mem_cons.mp hg with hgf | hgr
        · rw [hgf]; exact (p3 q f hq).1
        · exact p2 g hgr
      · intro p g h
        obtain ⟨_, hgf, hold⟩ := hentry p g h
        refine ⟨(p3 p g hold).1, ?_⟩
        intro hmem
        rcases List.mem_cons.mp hmem with h1 | h1
        · exact hgf h1
        · exact (p3 p g hold).2 h1
      · intro p p' g h h'
        exact p4 p p' g (hentry p g h).2.2 (hentry p' g h').2.2
      · intro p g h
        obtain ⟨_, hgf, hold⟩ := hentry p g h
        simpa [hgf] using tm p g hold

/-- Every public call counts no frame twice. -/
theorem step_atMostOnce (s : BufferPoolManagerInstance) (op : Op)
    (hs : FramesAtMostOnce s ∧ TableCarriesIds s) (hE : EvictableOnlyUnpinned s) :
    FramesAtMostOnce (step s op) ∧ TableCarriesIds (step s op) := by
  cases op with
  | newPage => exact NewPgImp_atMostOnce s hs hE
  | fetchPage q => exact FetchPgImp_atMostOnce s q hs hE
  | unpinPage q d =>
    exact atMostOnce_congr s _ (UnpinPgImp_frame s q d).1 (UnpinPgImp_frame s q d).2.1
      (UnpinPgImp_pool_size s q d) (fun g => UnpinPgImp_page_id s q d g) hs
  | flushPage q =>
    have h := FlushedFrom_flush s s q (FlushedFrom_refl s)
    exact atMostOnce_congr s _ h.1 h.2.1 h.2.2.2.1 (fun g => (h.2.2.2.2.2.1 g).2.1) hs
  | flushAllPages =>
    have h := FlushAllPgsImp_flushedFrom s
    exact atMostOnce_congr s _ h.1 h.2.1 h.2.2.2.1 (fun g => (h.2.2.2.2.2.1 g).2.1) hs
  | deletePage q => exact DeletePgImp_atMostOnce s q hs

/-- Every sequence of public calls counts no frame twice and keeps the pool
size. -/
theorem run_atMostOnce (s : BufferPoolManagerInstance) (ops : List Op)
    (hs : FramesAtMostOnce s ∧ TableCarriesIds s) (hE : EvictableOnlyUnpinned s) :
    FramesAtMostOnce (run s ops) ∧ (run s ops).pool_size_ = s.pool_size_ := by
  induction ops generalizing s with
  | nil => exact ⟨hs.1, rfl⟩
  | cons op rest ih =>
    have h1 := step_atMostOnce s op hs hE
    have hE1 := (step_consistent s op ⟨hE, ⟨fun p f hpf => (hs.1.2.2.1 p f hpf).1, hs.1.2.1⟩⟩).1
    have := ih (step s op) h1 hE1
    exact ⟨this.1, this.2.trans (step_pool_size s op)⟩

/-- Along any sequence of calls, every page table entry `p -> f` keeps frame `f`
carrying id `p`. -/
theorem run_tableCarriesIds (s : BufferPoolManagerInstance) (ops : List Op)
    (hs : FramesAtMostOnce s ∧ TableCarriesIds s) (hE : EvictableOnlyUnpinned s) :
    TableCarriesIds (run s ops) := by
  induction ops generalizing s with
  | nil => exact hs.2
  | cons op rest ih =>
    have h1 := step_atMostOnce s op hs hE
    have hE1 := (step_consistent s op ⟨hE, ⟨fun p f hpf => (hs.1.2.2.1 p f hpf).1, hs.1.2.1⟩⟩).1
    exact ih (step s op) h1 hE1

/-- In every state reached from a freshly constructed pool, the frame of a
resident page carries the page's id and is not in the free list. -/
theorem reachable_resident_frame (n k : Nat) (d : DiskManager) (ops : List Op)
    (p : page_id_t) (f : frame_id_t)
    (hres : (run (BufferPoolManagerInstance.new n d k) ops).page_table_ p = some f) :
    ((run (BufferPoolManagerInstance.new n d k) ops).pages_ f).page_id_ = p ∧
    f ∉ (run (BufferPoolManagerInstance.new n d k) ops).free_list_ := by
  have h0 := new_partitioned n k d
  have hE := (reachable_consistent n k d []).1
  have hs : FramesAtMostOnce (BufferPoolManagerInstance.new n d k) ∧
      TableCarriesIds (BufferPoolManagerInstance.new n d k) :=
    ⟨⟨h0.1.1, h0.1.2.1, h0.1.2.2.1, h0.1.2.2.2.1⟩, fun p f hpf => (h0.2 p f hpf).1⟩
  exact ⟨run_tableCarriesIds _ ops hs hE p f hres,
    ((run_atMostOnce _ ops hs hE).1.2.2.1 p f hres).2⟩

/-- The page table of the sample pool `orphaned2` maps page 0 to frame 1 and
nothing else. -/
theorem orphaned2_page_table (p : page_id_t) :
    Sample.orphaned2.page_table_ p = if p = 0 then some 1 else none := by
  by_cases hp : p = 0
  · subst hp
    decide
  · have h1 : (BufferPoolManagerInstance.new 2 DiskManager.empty 2).free_list_ = 0 :: [1] := by
      decide
    have h2 : ((BufferPoolManagerInstance.new 2 DiskManager.empty 2).FetchPgImp 0).2.free_list_
        = 1 :: [] := by decide
    show (((BufferPoolManagerInstance.new 2 DiskManager.empty 2).FetchPgImp
      0).2.NewPgImp).2.page_table_ p = _
    rw [NewPgImp_free _ 1 [] h2]
    simp only []
    rw [FetchPgImp_miss_free _ 0 0 [1] (by decide) h1]
    simp [PageTable.Insert, hp, BufferPoolManagerInstance.new]

/-- A run over two sequences of calls is the run over the second from the state
after the first. -/
theorem run_append (s : BufferPoolManagerInstance) (a b : List Op) :
    run s (a ++ b) = run (run s a) b := by
  simp [run, List.foldl_append]

/-- A run starts with its first call. -/
theorem run_cons (s : BufferPoolManagerInstance) (op : Op) (rest : List Op) :
    run s (op :: rest) = run (step s op) rest := rfl

/-- The fetches of a sequence are known when the first call's is and those of the
rest are. -/
theorem fetchesKnownAll_cons (s : BufferPoolManagerInstance) (op : Op) (rest : List Op) :
    fetchesKnownAll s (op :: rest) = (fetchesKnown s op && fetchesKnownAll (step s op) rest) :=
  rfl

/-- The fetches of two sequences of calls are all known when those of the first
are, and those of the second are from the state after the first. -/
theorem fetchesKnownAll_append (s : BufferPoolManagerInstance) (a b : List Op) :
    fetchesKnownAll s (a ++ b) = (fetchesKnownAll s a && fetchesKnownAll (run s a) b) := by
  induction a generalizing s with
  | nil => simp [fetchesKnownAll, run]
  | cons op rest ih =>
    show (fetchesKnown s op && fetchesKnownAll (step s op) (rest ++ b))
      = ((fetchesKnown s op && fetchesKnownAll (step s op) rest)
          && fetchesKnownAll (run (step s op) rest) b)
    rw [ih, Bool.and_assoc]

/-- An id counter that stands at `wrapPageId (1 + k)` with `k < 2^32 - 1` does not
stand at `0`, and its increment stands at `wrapPageId (1 + (k + 1))`. -/
theorem wrapPageId_succ (k : Nat) (hk : k < 4294967295) :
    wrapPageId (1 + k) ≠ 0 ∧
    wrapPageId (wrapPageId (1 + k) + 1) = wrapPageId (1 + ((k + 1 : Nat) : Int)) := by
  show ((1 + (k : Int) + 2147483648) % 4294967296 - 2147483648 : Int) ≠ 0 ∧
    ((((1 + (k : Int) + 2147483648) % 4294967296 - 2147483648) + 1 + 2147483648)
      % 4294967296 - 2147483648 : Int)
    = (1 + ((k + 1 : Nat) : Int) + 2147483648) % 4294967296 - 2147483648
  push_cast
  omega

/-- One round of creating and deleting a page, before the id counter has come
back to `0`, leaves page 0 the only resident page and frame 1 free, and advances
the id counter by one. -/
theorem createAndDelete_round (s : BufferPoolManagerInstance) (k : Nat)
    (hs : OnePageHeld s k) (hk : k < 4294967295) :
    OnePageHeld
      (run s [Op.newPage, Op.unpinPage (wrapPageId (1 + k)) false,
        Op.deletePage (wrapPageId (1 + k))]) (k + 1) := by
  obtain ⟨hpool, hfl, htab, hnext⟩ := hs
  obtain ⟨hne, hsucc⟩ := wrapPageId_succ k hk
  have e1 := NewPgImp_free s 1 [] hfl
  have hres1 : s.NewPgImp.2.page_table_ (wrapPageId (1 + k)) = some 1 := by
    rw [e1, hnext]
    simp [PageTable.Insert]
  have hpin1 : 0 < (s.NewPgImp.2.pages_ 1).pin_count_ := by
    rw [e1]
    simp
  have e2 := UnpinPgImp_pinned s.NewPgImp.2 (wrapPageId (1 + k)) 1 false hres1 hpin1
  have hres2 : (s.NewPgImp.2.UnpinPgImp (wrapPageId (1 + k)) false).2.page_table_
      (wrapPageId (1 + k)) = some 1 := by
    rw [e2]
    exact hres1
  have hpin2 : ¬ ((s.NewPgImp.2.UnpinPgImp (wrapPageId (1 + k)) false).2.pages_ 1).pin_count_
      > 0 := by
    rw [e2, e1]
    simp
  have e3 := DeletePgImp_unpinned (s.NewPgImp.2.UnpinPgImp (wrapPageId (1 + k)) false).2
    (wrapPageId (1 + k)) 1 hres2 hpin2
  show OnePageHeld
    (((s.NewPgImp.2.UnpinPgImp (wrapPageId (1 + k)) false).2.DeletePgImp
      (wrapPageId (1 + k))).2) (k + 1)
  rw [e3, e2, e1]
  refine ⟨hpool, rfl, ?_, ?_⟩
  · intro p
    show (if p = wrapPageId (1 + k) then none
      else if p = s.next_page_id_ then some 1 else s.page_table_ p)
      = if p = 0 then some 0 else none
    rw [hnext, htab p]
    by_cases hp : p = wrapPageId (1 + k)
    · have hp0 : p ≠ 0 := hp ▸ hne
      simp [hp, hp0, hne]
    · simp [hp]
  · show wrapPageId (s.next_page_id_ + 1) = wrapPageId (1 + ((k + 1 : Nat) : Int))
    rw [hnext]
    exact hsucc

/-- Rounds of creating and deleting a page, as long as the id counter has not come
back to `0`, leave page 0 the only resident page and frame 1 free; they
contain no `FetchPage`. -/
theorem createAndDelete_rounds (n k : Nat) (s : BufferPoolManagerInstance)
    (hs : OnePageHeld s k) (hk : k + n ≤ 4294967295) :
    OnePageHeld (run s (createAndDelete n k)) (k + n) ∧
    fetchesKnownAll s (createAndDelete n k) = true := by
  induction n generalizing k s with
  | zero => exact ⟨hs, rfl⟩
  | succ n ih =>
    have h1 := createAndDelete_round s k hs (by omega)
    have h2 := ih (k + 1) _ h1 (by omega)
    have e : k + (n + 1) = k + 1 + n := by omega
    have e2 : run s (createAndDelete (n + 1) k)
        = run (run s [Op.newPage, Op.unpinPage (wrapPageId (1 + k)) false,
            Op.deletePage (wrapPageId (1 + k))]) (createAndDelete n (k + 1)) := rfl
    rw [e, e2]
    exact ⟨h2.1, by simpa [createAndDelete, fetchesKnownAll, fetchesKnown, run] using h2.2⟩

/-- When page 0 is the only resident page, frame 1 is free and the id counter has
come back to `0`, `NewPage()` hands out id 0 again and replaces the page table
entry of page 0: frame 0 is left in neither the free list nor the image of the
page table. -/
theorem OnePageHeld_newPage (t : BufferPoolManagerInstance)
    (h : OnePageHeld t 4294967295) : ¬ Partitioned (run t [Op.newPage]) := by
  obtain ⟨hpool, hfl, htab, hnext⟩ := h
  have hz : wrapPageId (1 + ((4294967295 : Nat) : Int)) = 0 := by decide
  rw [hz] at hnext
  intro hP
  have e := NewPgImp_free t 1 [] hfl
  have hcov := hP.2.2.2.2 0 (by
    show 0 < (step t Op.newPage).pool_size_
    rw [step_pool_size, hpool]
    exact Nat.zero_lt_two)
  change (0 ∈ t.NewPgImp.2.free_list_ ∨ ∃ p, t.NewPgImp.2.page_table_ p = some 0) at hcov
  rw [e, hnext] at hcov
  rcases hcov with hmem | ⟨p, hp⟩
  · simp at hmem
  · by_cases hp0 : p = 0
    · simp [PageTable.Insert, hp0] at hp
    · simp [PageTable.Insert, hp0, htab p] at hp

/-- Without the bound on the number of calls, the frames of a pool reached without
any `FetchPage` need not be partitioned: after `NewPage()` has handed out id 0 and
`2^32 - 1` further pages have been created and deleted, the id counter stands at
`0` again, and the next `NewPage()` hands out id 0 a second time and replaces the
page table entry of page 0, which is still resident in frame 0. Frame 0 is then
in neither the free list nor the image of the page table. -/
theorem wrapAround_not_partitioned (k : Nat) (d : DiskManager) :
    fetchesKnownAll (BufferPoolManagerInstance.new 2 d k) wrapAround = true ∧
    ¬ Partitioned (run (BufferPoolManagerInstance.new 2 d k) wrapAround) := by
  have h0 : OnePageHeld (step (BufferPoolManagerInstance.new 2 d k) Op.newPage) 0 := by
    show OnePageHeld (BufferPoolManagerInstance.new 2 d k).NewPgImp.2 0
    rw [NewPgImp_free _ 0 [1] (by simp [BufferPoolManagerInstance.new, List.range_succ])]
    refine ⟨rfl, rfl, ?_, rfl⟩
    intro p
    simp [PageTable.Insert, BufferPoolManagerInstance.new]
  have h1 := createAndDelete_rounds 4294967295 0 _ h0 (by omega)
  refine ⟨?_, ?_⟩
  · unfold wrapAround
    rw [fetchesKnownAll_cons, fetchesKnownAll_append, h1.2]
    rfl
  · unfold wrapAround
    rw [run_cons, run_append]
    have h2 := h1.1
    rw [Nat.zero_add] at h2
    exact OnePageHeld_newPage _ h2

/-- C18, the claim as stated fails: on a fresh two-frame pool, `FetchPage(0)`
puts page 0 in frame 0, and `NewPage()` then hands out id 0 and installs it in
frame 1, replacing the page table entry of id 0. Frame 0 of the pool is then
neither in the free list nor in the image of the page table, so the frames are
not partitioned. -/
theorem orphaned_frame :
    ((BufferPoolManagerInstance.new 2 DiskManager.empty 2).FetchPgImp 0).1 = some 0 ∧
    ((BufferPoolManagerInstance.new 2 DiskManager.empty 2).FetchPgImp 0).2.NewPgImp.1
      = some (0, 1) ∧
    0 < Sample.orphaned2.pool_size_ ∧
    0 ∉ Sample.orphaned2.free_list_ ∧
    (∀ p, Sample.orphaned2.page_table_ p ≠ some 0) ∧
    ¬ Partitioned Sample.orphaned2 := by
  have htable : ∀ p, Sample.orphaned2.page_table_ p ≠ some 0 := by
    intro p
    rw [orphaned2_page_table]
    split <;> simp
  refine ⟨by decide, by decide, by decide, by decide, htable, ?_⟩
  intro h
  rcases h.2.2.2.2 0 (by decide) with hmem | ⟨p, hp⟩
  · revert hmem
    decide
  · exact htable p hp

/-- C18, amended: a freshly constructed pool of `N` frames has the free list
`0 .. N-1` and an empty page table. In every state reached from it by public
calls, the free list has no duplicates and holds frames of the pool, every page
table entry maps to a frame of the pool that is not in the free list, no two
page ids map to the same frame, and hence any list of distinct resident page
ids has at most `N` elements. If moreover every `FetchPage` asked for an id below
the id counter at the time of the call, and fewer than `2^31` calls were made
(so the 32-bit id counter has not wrapped), every frame of the pool is in the
free list or in the image of the page table, so in exactly one of the two. -/
theorem partition_invariant :
    (∀ (n k : Nat) (d : DiskManager),
      (BufferPoolManagerInstance.new n d k).free_list_ = List.range n ∧
      ∀ p, (BufferPoolManagerInstance.new n d k).page_table_ p = none) ∧
    (∀ (n k : Nat) (d : DiskManager) (ops : List Op),
      FramesAtMostOnce (run (BufferPoolManagerInstance.new n d k) ops) ∧
      (run (BufferPoolManagerInstance.new n d k) ops).pool_size_ = n ∧
      ∀ l : List page_id_t, l.Nodup →
        (∀ p, p ∈ l → ∃ f, (run (BufferPoolManagerInstance.new n d k) ops).page_table_ p = some f) →
        l.length ≤ n) ∧
    (∀ (n k : Nat) (d : DiskManager) (ops : List Op),
      fetchesKnownAll (BufferPoolManagerInstance.new n d k) ops = true →
      ops.length < 2147483648 →
      Partitioned (run (BufferPoolManagerInstance.new n d k) ops)) := by
  refine ⟨fun n k d => ⟨rfl, fun _ => rfl⟩, ?_, ?_⟩
  · intro n k d ops
    have h0 := new_partitioned n k d
    have hE := (reachable_consistent n k d []).1
    have hrun := run_atMostOnce (BufferPoolManagerInstance.new n d k) ops
      ⟨⟨h0.1.1, h0.1.2.1, h0.1.2.2.1, h0.1.2.2.2.1⟩, fun p f hpf => (h0.2 p f hpf).1⟩ hE
    have hsize : (run (BufferPoolManagerInstance.new n d k) ops).pool_size_ = n := hrun.2
    refine ⟨hrun.1, hsize, ?_⟩
    intro l hl hres
    have := resident_count_le _ hrun.1 l hl hres
    rw [hsize] at this
    exact this
  · intro n k d ops hops hlen
    have hhigh : ((BufferPoolManagerInstance.new n d k).next_page_id_ : Int) + ops.length
        < 2147483648 := by
      show (0 : Int) + (ops.length : Int) < 2147483648
      omega
    exact (run_partitioned (BufferPoolManagerInstance.new n d k) ops (new_partitioned n k d)
      (reachable_consistent n k d []).1 hops
      (show (-2147483648 : Int) ≤ (0 : Int) by decide) hhigh).1

/-- Witness of the amended C18 on a two-frame pool after `NewPage()`,
`FetchPage(0)`, `UnpinPage(0, false)`, `UnpinPage(0, true)`, `DeletePage(0)`:
every `FetchPage` asked for an id below the counter, the frames are partitioned,
and the free list holds both frames again. -/
theorem partition_invariant_witness :
    fetchesKnownAll (BufferPoolManagerInstance.new 2 DiskManager.empty 2)
      [Op.newPage, Op.fetchPage 0, Op.unpinPage 0 false, Op.unpinPage 0 true,
       Op.deletePage 0] = true ∧
    Partitioned (run (BufferPoolManagerInstance.new 2 DiskManager.empty 2)
      [Op.newPage, Op.fetchPage 0, Op.unpinPage 0 false, Op.unpinPage 0 true,
       Op.deletePage 0]) ∧
    (run (BufferPoolManagerInstance.new 2 DiskManager.empty 2)
      [Op.newPage, Op.fetchPage 0, Op.unpinPage 0 false, Op.unpinPage 0 true,
       Op.deletePage 0]).free_list_ = [0, 1] :=
  ⟨by decide, partition_invariant.2.2 2 2 DiskManager.empty _ (by decide) (by decide),
   by decide⟩

end bustub
